import Mathlib

/-!
Verification of the container cores of the Hospital Patient Care Management
System (DSTR Task 2): the circular FIFO queue (`PatientQueue`,
`AmbulanceCQueue`), the array stack with keyed removal (`SupplyStack`),
the 1-indexed binary max-heap (`EmergencyMaxHeap`), and the line-oriented
text persistence of each component.

Backing arrays (`T data[N]`) are modelled as total functions `Nat → T`
updated with `upd`; all reachable indices are below the capacity, so no
out-of-bounds behaviour is lost.  C++ `int` fields that are only stored,
printed and compared (`quantity`, `priority`, the stack `top` cursor) are
modelled as `Int`; no arithmetic that could overflow is performed on them
by the translated code.  Text files are modelled as the list of their
lines, which is faithful for field values that contain no newline byte.
-/

namespace HospitalDSTR

/-- Capacity constants from `utils.hpp`. -/
def MAX_PATIENTS : Nat := 100

def MAX_SUPPLIES : Nat := 100

def MAX_EMERG : Nat := 100

def MAX_AMBULANCES : Nat := 20

/-- Single-cell array store: `d[i] = v`. -/
def upd {α : Type} (d : Nat → α) (i : Nat) (v : α) : Nat → α :=
  fun j => if j = i then v else d j

theorem upd_self {α : Type} (d : Nat → α) (i : Nat) (v : α) : upd d i v i = v := by
  simp [upd]

theorem upd_other {α : Type} (d : Nat → α) (i : Nat) (v : α) {j : Nat} (h : j ≠ i) :
    upd d i v j = d j := by
  simp [upd, h]

/-- `struct Patient` (patient.hpp): `char id[16]; char name[50]; char condition[30];`. -/
structure Patient where
  id : String
  name : String
  condition : String
deriving DecidableEq

/-- `struct Ambulance` (ambulance.hpp): `char plate[16];`. -/
structure Ambulance where
  plate : String
deriving DecidableEq

/-- `struct Supply` (supply.hpp): `char type[30]; int quantity; char batch[20];`. -/
structure Supply where
  type : String
  quantity : Int
  batch : String
deriving DecidableEq

/-- `struct EmergencyCase` (emergency.hpp): `char patient[50]; char type[40]; int priority;`. -/
structure EmergencyCase where
  patient : String
  type : String
  priority : Int
deriving DecidableEq

/-!
### Circular FIFO queue

`PatientQueue` (patient.hpp) and `AmbulanceCQueue` (ambulance.hpp) are the
same code at different element types and capacities, so the state and the
operations are given once, parameterised by the capacity `cap`.
-/

/-- The shared shape of `struct PatientQueue` / `struct AmbulanceCQueue`:
`T data[CAP]; int head = 0; int tail = 0; int count = 0;`. -/
structure CQueue (α : Type) where
  data : Nat → α
  head : Nat
  tail : Nat
  count : Nat

/-- `bool enqueue(const T&)`: full check (`count == CAP`), write at `tail`,
advance `tail` modulo the capacity, bump `count`. -/
def CQueue.enqueue {α : Type} (cap : Nat) (q : CQueue α) (a : α) : Bool × CQueue α :=
  if q.count = cap then (false, q)
  else
    (true,
      { data := upd q.data q.tail a
        head := q.head
        tail := (q.tail + 1) % cap
        count := q.count + 1 })

/-- `bool dequeue(T& out)`: empty check (`count == 0`), read at `head`,
advance `head` modulo the capacity, drop `count`. -/
def CQueue.dequeue {α : Type} (cap : Nat) (q : CQueue α) : Option α × CQueue α :=
  if q.count = 0 then (none, q)
  else
    (some (q.data q.head),
      { data := q.data
        head := (q.head + 1) % cap
        tail := q.tail
        count := q.count - 1 })

/-- `void clear() { head = tail = count = 0; }`. -/
def CQueue.clear {α : Type} (q : CQueue α) : CQueue α :=
  { q with head := 0, tail := 0, count := 0 }

/-- The elements in logical (arrival) order, exactly as `print()` and
`saveToFile()` walk them: `count` slots starting at `head`, advancing
modulo the capacity. -/
def CQueue.toList {α : Type} (cap : Nat) (q : CQueue α) : List α :=
  (List.range q.count).map (fun i => q.data ((q.head + i) % cap))

/-- Representation invariant of every reachable queue state: `head` is a
valid slot, `count` never exceeds the capacity, and `tail` is `count`
slots after `head`. -/
abbrev CQueue.WF {α : Type} (cap : Nat) (q : CQueue α) : Prop :=
  q.head < cap ∧ q.count ≤ cap ∧ q.tail = (q.head + q.count) % cap

/-- `PatientQueue` from patient.hpp. -/
abbrev PatientQueue := CQueue Patient

/-- `PatientQueue::enqueue` at `MAX_PATIENTS`. -/
def PatientQueue.enqueue (q : PatientQueue) (p : Patient) : Bool × PatientQueue :=
  CQueue.enqueue MAX_PATIENTS q p

/-- `PatientQueue::dequeue` at `MAX_PATIENTS`. -/
def PatientQueue.dequeue (q : PatientQueue) : Option Patient × PatientQueue :=
  CQueue.dequeue MAX_PATIENTS q

/-- `AmbulanceCQueue` from ambulance.hpp. -/
abbrev AmbulanceCQueue := CQueue Ambulance

/-- `AmbulanceCQueue::enqueue` at `MAX_AMBULANCES`. -/
def AmbulanceCQueue.enqueue (q : AmbulanceCQueue) (a : Ambulance) : Bool × AmbulanceCQueue :=
  CQueue.enqueue MAX_AMBULANCES q a

/-- `AmbulanceCQueue::dequeue` at `MAX_AMBULANCES`. -/
def AmbulanceCQueue.dequeue (q : AmbulanceCQueue) : Option Ambulance × AmbulanceCQueue :=
  CQueue.dequeue MAX_AMBULANCES q

/-- `AmbulanceCQueue::rotateOnce`: no-op when `count <= 1`, otherwise
dequeue the front element and re-enqueue it at the tail.  (The C++ code
ignores the `dequeue` result flag; the `getD` default models the
zero-initialised `Ambulance first{}`, which is dead code because the
guard guarantees the dequeue succeeds.) -/
def AmbulanceCQueue.rotateOnce (q : AmbulanceCQueue) : AmbulanceCQueue :=
  if q.count ≤ 1 then q
  else
    let pr := CQueue.dequeue MAX_AMBULANCES q
    (CQueue.enqueue MAX_AMBULANCES pr.2 (pr.1.getD { plate := "" })).2

/-- A fresh `PatientQueue` (zero-initialised globals). -/
def emptyPatientQueue : PatientQueue :=
  { data := fun _ => { id := "", name := "", condition := "" }
    head := 0
    tail := 0
    count := 0 }

/-- A fresh `AmbulanceCQueue`. -/
def emptyAmbQueue : AmbulanceCQueue :=
  { data := fun _ => { plate := "" }, head := 0, tail := 0, count := 0 }

/-- `PatientQueue::enqueue` of the single-file variant (hospital.cpp):
in addition to the capacity check it rejects a patient whose `id` or
`name` is the empty string (`p.id[0]=='\0' || p.name[0]=='\0'`). -/
def PatientQueue.enqueueV2 (q : PatientQueue) (p : Patient) : Bool × PatientQueue :=
  if q.count = MAX_PATIENTS then (false, q)
  else if p.id = "" ∨ p.name = "" then (false, q)
  else
    (true,
      { data := upd q.data q.tail p
        head := q.head
        tail := (q.tail + 1) % MAX_PATIENTS
        count := q.count + 1 })

/-!
### Supply stack (supply.hpp)
-/

/-- `struct SupplyStack`: `Supply data[MAX_SUPPLIES]; int top = -1;`. -/
structure SupplyStack where
  data : Nat → Supply
  top : Int

/-- `bool push(const Supply&)`: full check (`top == MAX_SUPPLIES - 1`),
then `top++; data[top] = s;`. -/
def SupplyStack.push (st : SupplyStack) (s : Supply) : Bool × SupplyStack :=
  if st.top = (MAX_SUPPLIES : Int) - 1 then (false, st)
  else (true, { data := upd st.data (st.top + 1).toNat s, top := st.top + 1 })

/-- `bool pop(Supply&)`: empty check (`top == -1`), then read `data[top]`
and decrement `top`. -/
def SupplyStack.pop (st : SupplyStack) : Option Supply × SupplyStack :=
  if st.top = -1 then (none, st)
  else (some (st.data st.top.toNat), { st with top := st.top - 1 })

/-- `void clear() { top = -1; }`. -/
def SupplyStack.clear (st : SupplyStack) : SupplyStack :=
  { st with top := -1 }

/-- The stored records bottom-to-top (push order), as `saveToFile` walks
them (`for i = 0 .. top`). -/
def SupplyStack.toList (st : SupplyStack) : List Supply :=
  (List.range (st.top + 1).toNat).map st.data

/-- Representation invariant of every reachable stack state. -/
abbrev SupplyStack.WF (st : SupplyStack) : Prop :=
  -1 ≤ st.top ∧ st.top ≤ (MAX_SUPPLIES : Int) - 1

/-- A fresh `SupplyStack`. -/
def emptySupplyStack : SupplyStack :=
  { data := fun _ => { type := "", quantity := 0, batch := "" }, top := -1 }

/-- The top-down search of `ui_use_supply_by_type` (step 4):
`for (int i = gSupplies.top; i >= 0; --i) if (strcmp(data[i].type, wanted) == 0) { index = i; break; }`,
here descending from the argument index `i` to `0`. -/
def findTopIdx (d : Nat → Supply) (key : String) : Nat → Option Nat
  | 0 => if (d 0).type = key then some 0 else none
  | i + 1 => if (d (i + 1)).type = key then some (i + 1) else findTopIdx d key i

/-- The closing shift of `ui_use_supply_by_type` (step 5):
`for (int i = index; i < gSupplies.top; ++i) data[i] = data[i + 1];`
with `t` standing for the value of `gSupplies.top`. -/
def shiftLoop (t : Nat) (d : Nat → Supply) (i : Nat) : Nat → Supply :=
  if i < t then shiftLoop t (upd d i (d (i + 1))) (i + 1) else d
termination_by t - i
decreasing_by omega

/-- Core of `ui_use_supply_by_type` (supply.hpp lines 147-233) with the
chosen type passed in as `wanted`: empty check, top-down search for the
last-pushed record of that type, extraction of the match, and the shift
that closes the gap (`top--`).  The interactive steps 1-3 only select
`wanted` from the stored types and do not mutate the stack. -/
def useSupplyByType (st : SupplyStack) (wanted : String) : Option Supply × SupplyStack :=
  if st.top = -1 then (none, st)
  else
    match findTopIdx st.data wanted st.top.toNat with
    | none => (none, st)
    | some idx =>
        (some (st.data idx),
          { data := shiftLoop st.top.toNat st.data idx, top := st.top - 1 })

/-!
### Emergency max-heap (emergency.hpp)
-/

/-- `struct EmergencyMaxHeap`: `EmergencyCase data[MAX_EMERG + 1]; int sz = 0;`
(1-based indexing; slot 0 is never used). -/
structure EmergencyMaxHeap where
  data : Nat → EmergencyCase
  sz : Nat

/-- `swapCase(data[i], data[j])` as an array transformer. -/
def heapSwap (d : Nat → EmergencyCase) (i j : Nat) : Nat → EmergencyCase :=
  fun k => if k = i then d j else if k = j then d i else d k

/-- The sift-up loop of `push`:
`while (i > 1 && data[i].priority > data[i / 2].priority) { swapCase(data[i], data[i / 2]); i = i / 2; }`. -/
def siftUp (d : Nat → EmergencyCase) (i : Nat) : Nat → EmergencyCase :=
  if 1 < i ∧ (d (i / 2)).priority < (d i).priority then
    siftUp (heapSwap d i (i / 2)) (i / 2)
  else d
termination_by i
decreasing_by omega

/-- `void push(const EmergencyCase&)`: full check (`sz == MAX_EMERG`,
which only prints and returns), then `sz++; data[sz] = e;` and sift up. -/
def EmergencyMaxHeap.push (h : EmergencyMaxHeap) (e : EmergencyCase) : EmergencyMaxHeap :=
  if h.sz = MAX_EMERG then h
  else { data := siftUp (upd h.data (h.sz + 1) e) (h.sz + 1), sz := h.sz + 1 }

/-- `EmergencyCase top() { return data[1]; }`. -/
def EmergencyMaxHeap.top (h : EmergencyMaxHeap) : EmergencyCase :=
  h.data 1

/-- `void clear() { sz = 0; }`. -/
def EmergencyMaxHeap.clear (h : EmergencyMaxHeap) : EmergencyMaxHeap :=
  { h with sz := 0 }

/-- One round of the sift-down selection in `pop`:
`int left = 2*i; int right = 2*i+1; int largest = i;`
`if (left <= sz && data[left].priority > data[largest].priority) largest = left;`
`if (right <= sz && data[right].priority > data[largest].priority) largest = right;`. -/
def sdLargest (sz : Nat) (d : Nat → EmergencyCase) (i : Nat) : Nat :=
  if 2 * i ≤ sz ∧ (d i).priority < (d (2 * i)).priority then
    if 2 * i + 1 ≤ sz ∧ (d (2 * i)).priority < (d (2 * i + 1)).priority then 2 * i + 1
    else 2 * i
  else
    if 2 * i + 1 ≤ sz ∧ (d i).priority < (d (2 * i + 1)).priority then 2 * i + 1
    else i

theorem sdLargest_gt {sz : Nat} {d : Nat → EmergencyCase} {i : Nat}
    (h : sdLargest sz d i ≠ i) : i < sdLargest sz d i ∧ sdLargest sz d i ≤ sz := by
  unfold sdLargest at *
  split_ifs at * with h1 h2 h3
  · exact ⟨by omega, h2.1⟩
  · refine ⟨?_, h1.1⟩
    rcases Nat.eq_zero_or_pos i with hi | hi
    · exfalso
      subst hi
      simp only [Nat.mul_zero] at h1
      exact absurd h1.2 (lt_irrefl _)
    · omega
  · exact ⟨by omega, h3.1⟩
  · exact absurd rfl h

/-- The sift-down loop of `pop`: select the largest of the current node
and its children; stop if it is the current node, otherwise swap and
continue at the chosen child. -/
def siftDown (sz : Nat) (d : Nat → EmergencyCase) (i : Nat) : Nat → EmergencyCase :=
  if h : sdLargest sz d i = i then d
  else siftDown sz (heapSwap d i (sdLargest sz d i)) (sdLargest sz d i)
termination_by sz + 1 - i
decreasing_by
  have := sdLargest_gt h
  omega

/-- `void pop()`: no-op if empty; otherwise move the last element into
slot 1, decrement `sz`, and sift down from the root. -/
def EmergencyMaxHeap.pop (h : EmergencyMaxHeap) : EmergencyMaxHeap :=
  if h.sz = 0 then h
  else { data := siftDown (h.sz - 1) (upd h.data 1 (h.data h.sz)) 1, sz := h.sz - 1 }

/-- A fresh `EmergencyMaxHeap` (zero-initialised global). -/
def emptyEmergHeap : EmergencyMaxHeap :=
  { data := fun _ => { patient := "", type := "", priority := 0 }, sz := 0 }

/-- The max-heap invariant exactly as stated for the 1-indexed array:
every element below the root has priority at most its parent's. -/
def IsHeap (h : EmergencyMaxHeap) : Prop :=
  ∀ i, 2 ≤ i → i ≤ h.sz → (h.data i).priority ≤ (h.data (i / 2)).priority

/-- The stored cases in heap-array order `data[1] .. data[sz]`, as
`print()` and `saveToFile()` walk them. -/
def heapToList (h : EmergencyMaxHeap) : List EmergencyCase :=
  (List.range h.sz).map (fun k => h.data (k + 1))

/-- A user-level operation on the triage heap. -/
inductive HeapOp where
  | push (e : EmergencyCase)
  | pop

/-- Dispatch one operation (menu choices 1 and 2 of Role 3). -/
def applyHeapOp (h : EmergencyMaxHeap) : HeapOp → EmergencyMaxHeap
  | HeapOp.push e => h.push e
  | HeapOp.pop => h.pop

/-- Run a whole interaction sequence from the fresh heap. -/
def runHeap (ops : List HeapOp) : EmergencyMaxHeap :=
  ops.foldl applyHeapOp emptyEmergHeap

/-!
### Ring-buffer lemmas

The facts about `CQueue` that the FIFO, rotation and persistence claims
rest on: the abstraction `toList` evolves by append on `enqueue` and by
tail on `dequeue`, and `WF` is preserved.
-/

theorem mod_shift_inj {cap h a b : Nat} (ha : a < cap) (hb : b < cap)
    (hih : (h + a) % cap = (h + b) % cap) : a = b := by
  rcases Nat.le_total a b with hab | hab
  · have hmod : Nat.ModEq cap (h + a) (h + b) := hih
    have hdvd : cap ∣ (h + b) - (h + a) := (Nat.modEq_iff_dvd' (by omega)).mp hmod
    rcases Nat.eq_zero_or_pos ((h + b) - (h + a)) with h0 | hpos
    · omega
    · have := Nat.le_of_dvd hpos hdvd
      omega
  · have hmod : Nat.ModEq cap (h + b) (h + a) := hih.symm
    have hdvd : cap ∣ (h + a) - (h + b) := (Nat.modEq_iff_dvd' (by omega)).mp hmod
    rcases Nat.eq_zero_or_pos ((h + a) - (h + b)) with h0 | hpos
    · omega
    · have := Nat.le_of_dvd hpos hdvd
      omega

theorem CQueue.length_toList {α : Type} (cap : Nat) (q : CQueue α) :
    (CQueue.toList cap q).length = q.count := by
  simp [CQueue.toList]

theorem CQueue.toList_clear {α : Type} (cap : Nat) (q : CQueue α) :
    CQueue.toList cap (CQueue.clear q) = [] := by
  simp [CQueue.toList, CQueue.clear]

theorem CQueue.WF_clear {α : Type} {cap : Nat} (hcap : 0 < cap) (q : CQueue α) :
    CQueue.WF cap (CQueue.clear q) := by
  refine ⟨hcap, by simp [CQueue.clear], ?_⟩
  simp [CQueue.clear, Nat.mod_eq_of_lt hcap]

theorem CQueue.enqueue_full {α : Type} (cap : Nat) (q : CQueue α) (a : α)
    (h : q.count = cap) : CQueue.enqueue cap q a = (false, q) := by
  simp [CQueue.enqueue, h]

theorem CQueue.dequeue_empty {α : Type} (cap : Nat) (q : CQueue α)
    (h : q.count = 0) : CQueue.dequeue cap q = (none, q) := by
  simp [CQueue.dequeue, h]

theorem CQueue.enqueue_ok {α : Type} {cap : Nat} {q : CQueue α} (a : α)
    (hwf : CQueue.WF cap q) (hlt : q.count < cap) :
    ∃ q', CQueue.enqueue cap q a = (true, q') ∧
      CQueue.WF cap q' ∧
      CQueue.toList cap q' = CQueue.toList cap q ++ [a] ∧
      q'.count = q.count + 1 := by
  obtain ⟨hh, hc, ht⟩ := hwf
  have hne : q.count ≠ cap := by omega
  refine ⟨⟨upd q.data q.tail a, q.head, (q.tail + 1) % cap, q.count + 1⟩,
    by simp [CQueue.enqueue, hne], ⟨hh, by show q.count + 1 ≤ cap; omega, ?_⟩, ?_, rfl⟩
  · show (q.tail + 1) % cap = (q.head + (q.count + 1)) % cap
    rw [ht, Nat.mod_add_mod]
    congr 1
  · show (List.range (q.count + 1)).map (fun i => upd q.data q.tail a ((q.head + i) % cap)) =
      CQueue.toList cap q ++ [a]
    rw [List.range_succ, List.map_append]
    congr 1
    · apply List.map_congr_left
      intro i hi
      have hilt : i < q.count := List.mem_range.mp hi
      apply upd_other
      rw [ht]
      intro heq
      have : i = q.count := mod_shift_inj (by omega) (by omega) heq
      omega
    · simp only [List.map_cons, List.map_nil]
      rw [ht]
      simp [upd_self]

theorem CQueue.dequeue_ok {α : Type} {cap : Nat} {q : CQueue α}
    (hwf : CQueue.WF cap q) (hpos : 0 < q.count) :
    ∃ q', CQueue.dequeue cap q = (some (q.data q.head), q') ∧
      CQueue.WF cap q' ∧
      CQueue.toList cap q = q.data q.head :: CQueue.toList cap q' := by
  obtain ⟨hh, hc, ht⟩ := hwf
  have hne : q.count ≠ 0 := by omega
  have hcap : 0 < cap := by omega
  refine ⟨⟨q.data, (q.head + 1) % cap, q.tail, q.count - 1⟩,
    by simp [CQueue.dequeue, hne],
    ⟨Nat.mod_lt _ hcap, by show q.count - 1 ≤ cap; omega, ?_⟩, ?_⟩
  · show q.tail = ((q.head + 1) % cap + (q.count - 1)) % cap
    rw [ht, Nat.mod_add_mod]
    congr 1
    omega
  · show (List.range q.count).map (fun i => q.data ((q.head + i) % cap)) =
      q.data q.head ::
        (List.range (q.count - 1)).map (fun i => q.data (((q.head + 1) % cap + i) % cap))
    obtain ⟨c, hcnt⟩ : ∃ c, q.count = c + 1 := ⟨q.count - 1, by omega⟩
    rw [hcnt]
    simp only [Nat.add_sub_cancel, List.range_succ_eq_map, List.map_cons, List.map_map,
      Nat.add_zero, Nat.mod_eq_of_lt hh]
    refine congrArg₂ List.cons rfl ?_
    apply List.map_congr_left
    intro i _
    simp only [Function.comp]
    rw [Nat.mod_add_mod]
    congr 1
    congr 1
    omega

/-- `n` consecutive `dequeue` calls, collecting each call's result flag
(`some` = success). -/
def CQueue.drain {α : Type} (cap : Nat) : Nat → CQueue α → List (Option α)
  | 0, _ => []
  | n + 1, q =>
      (CQueue.dequeue cap q).1 :: CQueue.drain cap n (CQueue.dequeue cap q).2

theorem CQueue.drain_toList {α : Type} {cap : Nat} :
    ∀ (l : List α) (q : CQueue α), CQueue.WF cap q → CQueue.toList cap q = l →
      CQueue.drain cap l.length q = l.map some := by
  intro l
  induction l with
  | nil => intro q _ _; simp [CQueue.drain]
  | cons a l' ih =>
      intro q hwf hl
      have hpos : 0 < q.count := by
        have := CQueue.length_toList cap q
        rw [hl] at this
        simp at this
        omega
      obtain ⟨q2, heq, hwf', hcons⟩ := CQueue.dequeue_ok hwf hpos
      rw [hl] at hcons
      injection hcons with ha hl'
      simp only [List.length_cons, CQueue.drain, List.map_cons]
      simp only [heq]
      rw [← ha, ih _ hwf' hl'.symm]

/-- Enqueue a whole list in order (ignoring the result flags, as the
loaders do when the queue cannot overflow). -/
def CQueue.enqueueAll {α : Type} (cap : Nat) : List α → CQueue α → CQueue α
  | [], q => q
  | a :: ps, q => CQueue.enqueueAll cap ps (CQueue.enqueue cap q a).2

theorem CQueue.enqueueAll_toList {α : Type} {cap : Nat} :
    ∀ (ps : List α) (q : CQueue α), CQueue.WF cap q → q.count + ps.length ≤ cap →
      CQueue.WF cap (CQueue.enqueueAll cap ps q) ∧
      CQueue.toList cap (CQueue.enqueueAll cap ps q) = CQueue.toList cap q ++ ps := by
  intro ps
  induction ps with
  | nil => intro q hwf _; simpa [CQueue.enqueueAll] using hwf
  | cons a ps' ih =>
      intro q hwf hfit
      have hlt : q.count < cap := by simp at hfit; omega
      obtain ⟨q2, heq, hwf', htl, hcnt⟩ := CQueue.enqueue_ok a hwf hlt
      have hfit' : q2.count + ps'.length ≤ cap := by
        rw [hcnt]; simp at hfit ⊢; omega
      obtain ⟨hwf2, htl2⟩ := ih q2 hwf' hfit'
      simp only [CQueue.enqueueAll, heq]
      exact ⟨hwf2, by rw [htl2, htl]; simp⟩

/-!
### Rotation lemmas
-/

theorem rotateOnce_spec (q : AmbulanceCQueue) (hwf : CQueue.WF MAX_AMBULANCES q) :
    CQueue.WF MAX_AMBULANCES (AmbulanceCQueue.rotateOnce q) ∧
      CQueue.toList MAX_AMBULANCES (AmbulanceCQueue.rotateOnce q) =
        (CQueue.toList MAX_AMBULANCES q).rotate 1 := by
  by_cases h1 : q.count ≤ 1
  · rw [AmbulanceCQueue.rotateOnce, if_pos h1]
    refine ⟨hwf, ?_⟩
    have hlen : (CQueue.toList MAX_AMBULANCES q).length ≤ 1 := by
      rw [CQueue.length_toList]; exact h1
    match hl : CQueue.toList MAX_AMBULANCES q with
    | [] => simp
    | [a] => simp [List.rotate_singleton]
    | a :: b :: l => rw [hl] at hlen; simp at hlen
  · have h2 : 2 ≤ q.count := by omega
    obtain ⟨q2, heq, hwf2, hcons⟩ := CQueue.dequeue_ok hwf (by omega)
    have hcnt2 : q2.count = q.count - 1 := by
      have h1l := CQueue.length_toList MAX_AMBULANCES q
      have h2l := CQueue.length_toList MAX_AMBULANCES q2
      rw [hcons] at h1l
      simp only [List.length_cons] at h1l
      omega
    obtain ⟨q3, heq3, hwf3, htl3, _⟩ :=
      CQueue.enqueue_ok (q.data q.head) hwf2
        (by rw [hcnt2]; have := hwf.2.1; omega)
    have hrot : AmbulanceCQueue.rotateOnce q = q3 := by
      rw [AmbulanceCQueue.rotateOnce, if_neg (by omega)]
      simp only [heq, Option.getD_some]
      rw [heq3]
    rw [hrot]
    refine ⟨hwf3, ?_⟩
    rw [htl3, hcons, List.rotate_cons_succ, List.rotate_zero]

theorem rotateOnce_iter (n : Nat) :
    ∀ q : AmbulanceCQueue, CQueue.WF MAX_AMBULANCES q →
      CQueue.WF MAX_AMBULANCES (AmbulanceCQueue.rotateOnce^[n] q) ∧
        CQueue.toList MAX_AMBULANCES (AmbulanceCQueue.rotateOnce^[n] q) =
          (CQueue.toList MAX_AMBULANCES q).rotate n := by
  induction n with
  | zero => intro q hwf; simpa using hwf
  | succ n ihn =>
      intro q hwf
      obtain ⟨hwf1, htl1⟩ := rotateOnce_spec q hwf
      obtain ⟨hwfn, htln⟩ := ihn (AmbulanceCQueue.rotateOnce q) hwf1
      rw [Function.iterate_succ_apply]
      refine ⟨hwfn, ?_⟩
      rw [htln, htl1, List.rotate_rotate, Nat.add_comm]

/-!
### Heap lemmas: the sift-up and sift-down walks repair the invariant
-/

theorem heapSwap_left (d : Nat → EmergencyCase) (i j : Nat) : heapSwap d i j i = d j := by
  simp [heapSwap]

theorem heapSwap_right (d : Nat → EmergencyCase) (i j : Nat) : heapSwap d i j j = d i := by
  by_cases h : j = i <;> simp [heapSwap, h]

theorem heapSwap_other (d : Nat → EmergencyCase) (i j : Nat) {k : Nat}
    (h1 : k ≠ i) (h2 : k ≠ j) : heapSwap d i j k = d k := by
  simp [heapSwap, h1, h2]

theorem siftUp_eq (d : Nat → EmergencyCase) (i : Nat) :
    siftUp d i =
      if 1 < i ∧ (d (i / 2)).priority < (d i).priority then
        siftUp (heapSwap d i (i / 2)) (i / 2)
      else d := by
  conv_lhs => rw [siftUp]

theorem siftDown_eq (sz : Nat) (d : Nat → EmergencyCase) (i : Nat) :
    siftDown sz d i =
      if _h : sdLargest sz d i = i then d
      else siftDown sz (heapSwap d i (sdLargest sz d i)) (sdLargest sz d i) := by
  conv_lhs => rw [siftDown]

/-- Invariant of the sift-up walk at cursor `i`: every parent edge holds
except possibly the one into `i`, and the parent of `i` already dominates
the children of `i`. -/
def SUInv (sz : Nat) (d : Nat → EmergencyCase) (i : Nat) : Prop :=
  (∀ j, 2 ≤ j → j ≤ sz → j ≠ i → (d j).priority ≤ (d (j / 2)).priority) ∧
  (1 < i → ∀ c, c ≤ sz → c / 2 = i → (d c).priority ≤ (d (i / 2)).priority)

theorem siftUp_heap (sz : Nat) :
    ∀ i d, 1 ≤ i → i ≤ sz → SUInv sz d i →
      ∀ j, 2 ≤ j → j ≤ sz →
        ((siftUp d i) j).priority ≤ ((siftUp d i) (j / 2)).priority := by
  intro i
  induction i using Nat.strong_induction_on with
  | _ i ih =>
    intro d hi1 hisz hinv
    obtain ⟨ha, hb⟩ := hinv
    rw [siftUp_eq]
    by_cases hcond : 1 < i ∧ (d (i / 2)).priority < (d i).priority
    · rw [if_pos hcond]
      obtain ⟨hi2, hlt⟩ := hcond
      refine ih (i / 2) (by omega) _ (by omega) (by omega) ⟨?_, ?_⟩
      · intro j hj2 hjsz hjne
        by_cases hji : j = i
        · subst hji
          rw [heapSwap_left, heapSwap_right]
          exact le_of_lt hlt
        · by_cases hjc : j / 2 = i
          · rw [heapSwap_other _ _ _ hji (by omega), hjc, heapSwap_left]
            exact hb hi2 j hjsz hjc
          · by_cases hjp : j / 2 = i / 2
            · rw [heapSwap_other _ _ _ hji hjne, hjp, heapSwap_right]
              have h1 := ha j hj2 hjsz hji
              rw [hjp] at h1
              exact le_of_lt (lt_of_le_of_lt h1 hlt)
            · rw [heapSwap_other _ _ _ hji hjne, heapSwap_other _ _ _ hjc hjp]
              exact ha j hj2 hjsz hji
      · intro hp2 c hcsz hcp
        rw [heapSwap_other _ _ _ (show i / 2 / 2 ≠ i by omega)
          (show i / 2 / 2 ≠ i / 2 by omega)]
        by_cases hci : c = i
        · rw [hci, heapSwap_left]
          exact ha (i / 2) (by omega) (by omega) (by omega)
        · by_cases hcip : c = i / 2
          · exfalso
            rw [hcip] at hcp
            omega
          · rw [heapSwap_other _ _ _ hci hcip]
            have h1 : (d c).priority ≤ (d (i / 2)).priority := by
              have h1' := ha c (by omega) hcsz hci
              rw [hcp] at h1'
              exact h1'
            have h2 : (d (i / 2)).priority ≤ (d (i / 2 / 2)).priority :=
              ha (i / 2) (by omega) (by omega) (by omega)
            exact le_trans h1 h2
    · rw [if_neg hcond]
      intro j hj2 hjsz
      by_cases hji : j = i
      · subst hji
        push_neg at hcond
        exact hcond (by omega)
      · exact ha j hj2 hjsz hji

/-- Full characterisation of the `largest` selection of one sift-down
round: either it stays put (and then both children are dominated), or it
names a strictly greater child that also dominates its sibling. -/
theorem sdLargest_spec (sz : Nat) (d : Nat → EmergencyCase) (i : Nat) (hi : 1 ≤ i) :
    (sdLargest sz d i = i ∧
      (2 * i ≤ sz → (d (2 * i)).priority ≤ (d i).priority) ∧
      (2 * i + 1 ≤ sz → (d (2 * i + 1)).priority ≤ (d i).priority)) ∨
    (sdLargest sz d i ≤ sz ∧ i < sdLargest sz d i ∧ sdLargest sz d i / 2 = i ∧
      (d i).priority < (d (sdLargest sz d i)).priority ∧
      (∀ c, c ≤ sz → c / 2 = i →
        (d c).priority ≤ (d (sdLargest sz d i)).priority)) := by
  unfold sdLargest
  by_cases hA : 2 * i ≤ sz ∧ (d i).priority < (d (2 * i)).priority
  · rw [if_pos hA]
    by_cases hB : 2 * i + 1 ≤ sz ∧ (d (2 * i)).priority < (d (2 * i + 1)).priority
    · rw [if_pos hB]
      right
      refine ⟨hB.1, by omega, by omega, lt_trans hA.2 hB.2, ?_⟩
      intro c hcsz hcp
      have hcc : c = 2 * i ∨ c = 2 * i + 1 := by omega
      rcases hcc with hc | hc <;> subst hc
      · exact le_of_lt hB.2
      · exact le_refl _
    · rw [if_neg hB]
      right
      refine ⟨hA.1, by omega, by omega, hA.2, ?_⟩
      intro c hcsz hcp
      have hcc : c = 2 * i ∨ c = 2 * i + 1 := by omega
      rcases hcc with hc | hc <;> subst hc
      · exact le_refl _
      · have hnb : ¬ ((d (2 * i)).priority < (d (2 * i + 1)).priority) :=
          fun hlt => hB ⟨hcsz, hlt⟩
        omega
  · rw [if_neg hA]
    by_cases hC : 2 * i + 1 ≤ sz ∧ (d i).priority < (d (2 * i + 1)).priority
    · rw [if_pos hC]
      right
      refine ⟨hC.1, by omega, by omega, hC.2, ?_⟩
      intro c hcsz hcp
      have hcc : c = 2 * i ∨ c = 2 * i + 1 := by omega
      rcases hcc with hc | hc <;> subst hc
      · have hna : ¬ ((d i).priority < (d (2 * i)).priority) :=
          fun hlt => hA ⟨hcsz, hlt⟩
        have hcc2 := hC.2
        omega
      · exact le_refl _
    · rw [if_neg hC]
      left
      refine ⟨rfl, ?_, ?_⟩
      · intro hle
        have hna : ¬ ((d i).priority < (d (2 * i)).priority) :=
          fun hlt => hA ⟨hle, hlt⟩
        omega
      · intro hle
        have hnc : ¬ ((d i).priority < (d (2 * i + 1)).priority) :=
          fun hlt => hC ⟨hle, hlt⟩
        omega

/-- Invariant of the sift-down walk at cursor `i`: every parent edge holds
except possibly the two out of `i`, and the parent of `i` already
dominates the children of `i`. -/
def SDInv (sz : Nat) (d : Nat → EmergencyCase) (i : Nat) : Prop :=
  (∀ j, 2 ≤ j → j ≤ sz → j / 2 ≠ i → (d j).priority ≤ (d (j / 2)).priority) ∧
  (2 ≤ i → ∀ c, c ≤ sz → c / 2 = i → (d c).priority ≤ (d (i / 2)).priority)

theorem siftDown_heap (sz : Nat) :
    ∀ k i d, sz + 1 - i ≤ k → 1 ≤ i → SDInv sz d i →
      ∀ j, 2 ≤ j → j ≤ sz →
        ((siftDown sz d i) j).priority ≤ ((siftDown sz d i) (j / 2)).priority := by
  intro k
  induction k with
  | zero =>
      intro i d hk hi1 hinv j hj2 hjsz
      obtain ⟨ha, _⟩ := hinv
      have hm : sdLargest sz d i = i := by
        rcases sdLargest_spec sz d i hi1 with ⟨heq, _, _⟩ | ⟨hle, hgt, _, _, _⟩
        · exact heq
        · omega
      rw [siftDown_eq, dif_pos hm]
      exact ha j hj2 hjsz (by omega)
  | succ k ihk =>
      intro i d hk hi1 hinv j hj2 hjsz
      obtain ⟨ha, hb⟩ := hinv
      rw [siftDown_eq]
      rcases sdLargest_spec sz d i hi1 with ⟨heq, hl, hr⟩ | ⟨hmsz, hmi, hmp, hmlt, hmch⟩
      · rw [dif_pos heq]
        by_cases hjc : j / 2 = i
        · have hjj : j = 2 * i ∨ j = 2 * i + 1 := by omega
          rcases hjj with hj | hj <;> subst hj
          · rw [hjc]
            exact hl hjsz
          · rw [hjc]
            exact hr hjsz
        · exact ha j hj2 hjsz hjc
      · rw [dif_neg (by omega)]
        set m := sdLargest sz d i with hm
        refine ihk m (heapSwap d i m) (by omega) (by omega) ⟨?_, ?_⟩ j hj2 hjsz
        · intro j' hj'2 hj'sz hj'ne
          by_cases hj'm : j' = m
          · subst hj'm
            rw [heapSwap_right, hmp, heapSwap_left]
            exact le_of_lt hmlt
          · by_cases hj'i : j' = i
            · rw [hj'i] at hj'2 ⊢
              rw [heapSwap_left,
                heapSwap_other _ _ _ (show i / 2 ≠ i by omega)
                  (show i / 2 ≠ m by omega)]
              exact hb hj'2 m hmsz hmp
            · by_cases hj'p : j' / 2 = i
              · rw [heapSwap_other _ _ _ hj'i hj'm, hj'p, heapSwap_left]
                exact hmch j' hj'sz hj'p
              · rw [heapSwap_other _ _ _ hj'i hj'm,
                  heapSwap_other _ _ _ hj'p hj'ne]
                exact ha j' hj'2 hj'sz hj'p
        · intro _ c hcsz hcp
          rw [hmp, heapSwap_left,
            heapSwap_other _ _ _ (show c ≠ i by omega) (show c ≠ m by omega)]
          have h1 := ha c (by omega) hcsz (by omega)
          rw [hcp] at h1
          exact h1

theorem push_IsHeap {h : EmergencyMaxHeap} (e : EmergencyCase) (hh : IsHeap h) :
    IsHeap (h.push e) := by
  unfold EmergencyMaxHeap.push
  by_cases hfull : h.sz = MAX_EMERG
  · rw [if_pos hfull]; exact hh
  · rw [if_neg hfull]
    intro j hj2 hjsz
    refine siftUp_heap (h.sz + 1) (h.sz + 1) (upd h.data (h.sz + 1) e)
      (by omega) (le_refl _) ⟨?_, ?_⟩ j hj2 hjsz
    · intro j' hj'2 hj'sz hj'ne
      rw [upd_other _ _ _ hj'ne, upd_other _ _ _ (show j' / 2 ≠ h.sz + 1 by omega)]
      exact hh j' hj'2 (by omega)
    · intro _ c hcsz hcp
      omega

theorem pop_IsHeap {h : EmergencyMaxHeap} (hh : IsHeap h) : IsHeap h.pop := by
  unfold EmergencyMaxHeap.pop
  by_cases h0 : h.sz = 0
  · rw [if_pos h0]; exact hh
  · rw [if_neg h0]
    intro j hj2 hjsz
    refine siftDown_heap (h.sz - 1) h.sz 1 (upd h.data 1 (h.data h.sz))
      (by omega) (by omega) ⟨?_, ?_⟩ j hj2 hjsz
    · intro j' hj'2 hj'sz hj'p
      rw [upd_other _ _ _ (show j' ≠ 1 by omega),
        upd_other _ _ _ (show j' / 2 ≠ 1 by omega)]
      exact hh j' hj'2 (by omega)
    · exact fun h21 => absurd h21 (by omega)

theorem IsHeap_root_max {h : EmergencyMaxHeap} (hh : IsHeap h) :
    ∀ i, 1 ≤ i → i ≤ h.sz → (h.data i).priority ≤ (h.data 1).priority := by
  intro i
  induction i using Nat.strong_induction_on with
  | _ i ih =>
    intro hi1 hisz
    by_cases h1 : i = 1
    · subst h1; exact le_refl _
    · exact le_trans (hh i (by omega) hisz) (ih (i / 2) (by omega) (by omega) (by omega))

theorem IsHeap_empty : IsHeap emptyEmergHeap := by
  intro i h2 hsz
  simp [emptyEmergHeap] at hsz
  omega

theorem foldl_IsHeap (ops : List HeapOp) :
    ∀ h : EmergencyMaxHeap, IsHeap h → IsHeap (ops.foldl applyHeapOp h) := by
  induction ops with
  | nil => intro h hh; exact hh
  | cons op ops' ih =>
      intro h hh
      rw [List.foldl_cons]
      refine ih _ ?_
      cases op with
      | push e => exact push_IsHeap e hh
      | pop => exact pop_IsHeap hh

theorem runHeap_IsHeap (ops : List HeapOp) : IsHeap (runHeap ops) :=
  foldl_IsHeap ops emptyEmergHeap IsHeap_empty

/-!
### Supply stack lemmas
-/

/-- The zero-initialised `Supply{}` record. -/
def dummySupply : Supply := { type := "", quantity := 0, batch := "" }

theorem SupplyStack.push_ok {st : SupplyStack} (s : Supply) (hge : -1 ≤ st.top)
    (hlt : st.top < (MAX_SUPPLIES : Int) - 1) :
    ∃ st', st.push s = (true, st') ∧ st'.top = st.top + 1 ∧
      SupplyStack.toList st' = SupplyStack.toList st ++ [s] := by
  have hne : ¬ (st.top = (MAX_SUPPLIES : Int) - 1) := by omega
  refine ⟨⟨upd st.data (st.top + 1).toNat s, st.top + 1⟩,
    by simp [SupplyStack.push, hne], rfl, ?_⟩
  show (List.range ((st.top + 1 + 1).toNat)).map (upd st.data (st.top + 1).toNat s) =
    SupplyStack.toList st ++ [s]
  have hn : (st.top + 1 + 1).toNat = (st.top + 1).toNat + 1 := by omega
  rw [hn, List.range_succ, List.map_append]
  congr 1
  · apply List.map_congr_left
    intro i hi
    exact upd_other _ _ _ (by have := List.mem_range.mp hi; omega)
  · simp [upd_self]

theorem findTopIdx_some (d : Nat → Supply) (key : String) (idx : Nat) :
    ∀ i, idx ≤ i → (d idx).type = key →
      (∀ j, idx < j → j ≤ i → (d j).type ≠ key) →
      findTopIdx d key i = some idx := by
  intro i
  induction i with
  | zero =>
      intro hle hmatch _
      have h0 : idx = 0 := by omega
      subst h0
      simp [findTopIdx, hmatch]
  | succ i ih =>
      intro hle hmatch hnone
      by_cases hidx : idx = i + 1
      · subst hidx
        simp [findTopIdx, hmatch]
      · have hne : (d (i + 1)).type ≠ key := hnone (i + 1) (by omega) (le_refl _)
        simp only [findTopIdx]
        rw [if_neg hne]
        exact ih (by omega) hmatch (fun j h1 h2 => hnone j h1 (by omega))

theorem shiftLoop_eq (t : Nat) (d : Nat → Supply) (i : Nat) :
    shiftLoop t d i =
      if i < t then shiftLoop t (upd d i (d (i + 1))) (i + 1) else d := by
  conv_lhs => rw [shiftLoop]

theorem shiftLoop_eval (t : Nat) :
    ∀ k i (d : Nat → Supply) j, t - i ≤ k →
      shiftLoop t d i j = if i ≤ j ∧ j < t then d (j + 1) else d j := by
  intro k
  induction k with
  | zero =>
      intro i d j hk
      rw [shiftLoop_eq, if_neg (by omega), if_neg (by omega)]
  | succ k ihk =>
      intro i d j hk
      by_cases hit : i < t
      · rw [shiftLoop_eq, if_pos hit, ihk (i + 1) _ j (by omega)]
        by_cases hj : i + 1 ≤ j ∧ j < t
        · rw [if_pos hj, if_pos (by omega)]
          exact upd_other _ _ _ (by omega)
        · rw [if_neg hj]
          by_cases hji : j = i
          · rw [hji, upd_self, if_pos ⟨le_refl _, hit⟩]
          · rw [if_neg (by omega), upd_other _ _ _ hji]
      · rw [shiftLoop_eq, if_neg hit, if_neg (by omega)]

theorem SupplyStack.toList_getD (st : SupplyStack) (j : Nat)
    (h : j < (SupplyStack.toList st).length) :
    (SupplyStack.toList st).getD j dummySupply = st.data j := by
  rw [List.getD_eq_getElem _ _ h]
  simp [SupplyStack.toList]

/-- Core correctness of the keyed removal: if `idx` is the position of the
most recently pushed record whose stored `type` equals `key` (no later
position matches), the operation returns exactly that record and the
remaining traversal is the original one with position `idx` cut out. -/
theorem useSupplyByType_spec (st : SupplyStack) (key : String) (idx : Nat)
    (hidx : idx < (SupplyStack.toList st).length)
    (hmatch : ((SupplyStack.toList st).getD idx dummySupply).type = key)
    (hlast : ∀ j, idx < j → j < (SupplyStack.toList st).length →
      ((SupplyStack.toList st).getD j dummySupply).type ≠ key) :
    (useSupplyByType st key).1 = some ((SupplyStack.toList st).getD idx dummySupply) ∧
    SupplyStack.toList (useSupplyByType st key).2 =
      (SupplyStack.toList st).take idx ++ (SupplyStack.toList st).drop (idx + 1) := by
  have hlen : (SupplyStack.toList st).length = (st.top + 1).toNat := by
    simp [SupplyStack.toList]
  have htop : 0 ≤ st.top := by rw [hlen] at hidx; omega
  have hne : ¬ (st.top = -1) := by omega
  have hnn : (st.top + 1).toNat = st.top.toNat + 1 := by omega
  have hmatch' : (st.data idx).type = key := by
    rw [SupplyStack.toList_getD st idx hidx] at hmatch
    exact hmatch
  have hlast' : ∀ j, idx < j → j ≤ st.top.toNat → (st.data j).type ≠ key := by
    intro j h1 h2
    have hj : j < (SupplyStack.toList st).length := by rw [hlen]; omega
    have hres := hlast j h1 hj
    rw [SupplyStack.toList_getD st j hj] at hres
    exact hres
  have hfind : findTopIdx st.data key st.top.toNat = some idx :=
    findTopIdx_some st.data key idx st.top.toNat
      (by rw [hlen, hnn] at hidx; omega) hmatch' hlast'
  have heval : useSupplyByType st key =
      (some (st.data idx), ⟨shiftLoop st.top.toNat st.data idx, st.top - 1⟩) := by
    unfold useSupplyByType
    rw [if_neg hne, hfind]
  rw [heval]
  constructor
  · rw [SupplyStack.toList_getD st idx hidx]
  · show (List.range ((st.top - 1 + 1).toNat)).map (shiftLoop st.top.toNat st.data idx) =
      (SupplyStack.toList st).take idx ++ (SupplyStack.toList st).drop (idx + 1)
    have h1 : (st.top - 1 + 1).toNat = st.top.toNat := by omega
    rw [h1]
    have hidxn : idx ≤ st.top.toNat := by rw [hlen] at hidx; omega
    have hclosed : ∀ j, shiftLoop st.top.toNat st.data idx j =
        if idx ≤ j ∧ j < st.top.toNat then st.data (j + 1) else st.data j :=
      fun j => shiftLoop_eval st.top.toNat st.top.toNat idx st.data j (by omega)
    have hsplit : List.range st.top.toNat =
        List.range idx ++ (List.range (st.top.toNat - idx)).map (idx + ·) := by
      conv_lhs => rw [show st.top.toNat = idx + (st.top.toNat - idx) by omega]
      exact List.range_add idx (st.top.toNat - idx)
    have htake : (SupplyStack.toList st).take idx = (List.range idx).map st.data := by
      show ((List.range ((st.top + 1).toNat)).map st.data).take idx = _
      rw [← List.map_take, List.take_range, show min idx ((st.top + 1).toNat) = idx by omega]
    have hdrop : (SupplyStack.toList st).drop (idx + 1) =
        ((List.range (st.top.toNat - idx)).map ((idx + 1) + ·)).map st.data := by
      show ((List.range ((st.top + 1).toNat)).map st.data).drop (idx + 1) = _
      rw [← List.map_drop]
      congr 1
      rw [hnn]
      conv_lhs =>
        rw [show st.top.toNat + 1 = (idx + 1) + (st.top.toNat - idx) by omega,
          List.range_add]
      exact List.drop_left' (by simp)
    rw [hsplit, List.map_append, htake, hdrop]
    congr 1
    · apply List.map_congr_left
      intro j hj
      have hjlt : j < idx := List.mem_range.mp hj
      rw [hclosed j, if_neg (by omega)]
    · rw [List.map_map, List.map_map]
      apply List.map_congr_left
      intro j hj
      have hjlt : j < st.top.toNat - idx := List.mem_range.mp hj
      simp only [Function.comp]
      rw [hclosed (idx + j), if_pos (by omega)]
      congr 1
      omega

/-!
### Text persistence

A text file is modelled as the list of its lines (without the trailing
`'\n'` of each line).  `std::getline` hands over one line at a time;
`in >> intVar` skips whitespace (also across line boundaries), parses an
optional sign and a non-empty digit run, and fails otherwise; the
`in.ignore(max, '\n')` that follows a successful `>>` discards the rest
of the current line.
-/

/-- `strncpy(dst, src, n)` into a zeroed buffer: the first `n` characters. -/
def strTrunc (n : Nat) (s : String) : String :=
  { data := s.data.take n }

/-- `isdigit` over the ASCII range (as `operator>>` classifies digits). -/
def charIsDigit (c : Char) : Bool :=
  decide (48 ≤ c.toNat ∧ c.toNat ≤ 57)

/-- `isspace` over the ASCII range (the default-locale whitespace set
skipped by `operator>>`). -/
def charIsSpace (c : Char) : Bool :=
  decide (c.toNat = 32 ∨ c.toNat = 9 ∨ c.toNat = 10 ∨ c.toNat = 11 ∨
    c.toNat = 12 ∨ c.toNat = 13)

/-- The decimal digit character for `d < 10`, as `operator<<` renders it. -/
def digitChar (d : Nat) : Char := Char.ofNat (48 + d)

/-- Decimal rendering of a natural number, most significant digit first
(`operator<<` for non-negative `int`). -/
def natRepr (n : Nat) : List Char :=
  if n < 10 then [digitChar n]
  else natRepr (n / 10) ++ [digitChar (n % 10)]
termination_by n
decreasing_by omega

/-- Decimal rendering of an `int` by `operator<<`. -/
def intRepr (i : Int) : String :=
  if i < 0 then { data := '-' :: natRepr (-i).toNat }
  else { data := natRepr i.toNat }

/-- The digit-run accumulator of `operator>>`: consume leading digits,
stop at the first non-digit (which `ignore` will discard). -/
def digitsVal (acc : Nat) : List Char → Nat
  | [] => acc
  | c :: cs => if charIsDigit c then digitsVal (10 * acc + (c.toNat - 48)) cs else acc

/-- Parse a non-empty leading digit run; `none` when the first character
is not a digit (extraction failure). -/
def parseDigits : List Char → Option Nat
  | [] => none
  | c :: cs => if charIsDigit c then some (digitsVal 0 (c :: cs)) else none

/-- Parse the integer token seen by `operator>>` after whitespace
skipping: optional sign, then a digit run. -/
def parseIntTok : List Char → Option Int
  | [] => none
  | c :: rest =>
    if c = '-' then (parseDigits rest).map (fun n => -(n : Int))
    else if c = '+' then (parseDigits rest).map (fun n => (n : Int))
    else (parseDigits (c :: rest)).map (fun n => (n : Int))

/-- `in >> intVar` followed by `in.ignore(max, '\n')`, on the remaining
lines of the stream: skip whitespace-only lines, then parse the first
token of the first non-blank line; the rest of that line is discarded.
`none` models extraction failure (end of file or malformed token) after
which the loaders break. -/
def readIntFromStream : List String → Option (Int × List String)
  | [] => none
  | l :: rest =>
    match l.data.dropWhile charIsSpace with
    | [] => readIntFromStream rest
    | c :: cs =>
      match parseIntTok (c :: cs) with
      | some v => some (v, rest)
      | none => none

theorem readIntFromStream_shrink :
    ∀ ls : List String, ∀ v rest, readIntFromStream ls = some (v, rest) →
      rest.length < ls.length := by
  intro ls
  induction ls with
  | nil => intro v rest h; simp [readIntFromStream] at h
  | cons l ls' ih =>
      intro v rest h
      rw [readIntFromStream] at h
      rcases hdw : l.data.dropWhile charIsSpace with _ | ⟨c, cs⟩ <;> simp only [hdw] at h
      · have := ih v rest h
        simp only [List.length_cons]
        omega
      · rcases hpt : parseIntTok (c :: cs) with _ | v'
        · simp only [hpt] at h
          exact absurd h (by simp)
        · simp only [hpt, Option.some.injEq, Prod.mk.injEq] at h
          obtain ⟨_, hrest⟩ := h
          rw [← hrest]
          simp only [List.length_cons]
          omega

/-- `safe_getline(buf, cap)` from utils.hpp, applied to the next pending
input line.  `cin.getline` checks the delimiter before the buffer-full
condition, so a line of up to `cap - 1` characters is stored in full with
the delimiter consumed — including the boundary case of exactly `cap - 1`
characters followed directly by `'\n'`; only when `cap - 1` characters
are stored and the next character is not the delimiter (line length
`≥ cap`) does the stream fail, and the code then resets `buf` to the
empty string.  Finally any trailing `'\n'`/`'\r'` characters are
stripped. -/
def safe_getline (line : String) (cap : Nat) : String :=
  if line.data.length + 1 ≤ cap then
    { data := ((line.data.reverse.dropWhile
        (fun c => decide (c.toNat = 10 ∨ c.toNat = 13))).reverse : List Char) }
  else ""

/-- A field value representable in a C `char[n + 1]` buffer and written
as one line of text: at most `n` characters, none of them a newline
(`'\n'` cannot enter these buffers through `safe_getline`/`getline`). -/
abbrev CStr (n : Nat) (s : String) : Prop :=
  s.data.length ≤ n ∧ ∀ c ∈ s.data, c ≠ '\n'

/-- The record stored by `SupplyStack::loadFromFile` for the three raw
inputs of one file record (the `strncpy` truncations are
`sizeof(field) - 1`). -/
def storedSupply (stype : String) (qty : Int) (sbatch : String) : Supply :=
  { type := strTrunc 29 stype, quantity := qty, batch := strTrunc 19 sbatch }

/-- The record stored by `PatientQueue::loadFromFile`. -/
def storedPatient (sid sname scond : String) : Patient :=
  { id := strTrunc 15 sid, name := strTrunc 49 sname, condition := strTrunc 29 scond }

/-- The record stored by `EmergencyMaxHeap::loadFromFile`. -/
def storedEmerg (spatient stype : String) (prio : Int) : EmergencyCase :=
  { patient := strTrunc 49 spatient, type := strTrunc 39 stype, priority := prio }

/-- `PatientQueue::saveToFile`: three lines per patient, in arrival
order from `head`. -/
def PatientQueue.saveLines (q : PatientQueue) : List String :=
  ((List.range q.count).map (fun i =>
    [(q.data ((q.head + i) % MAX_PATIENTS)).id,
     (q.data ((q.head + i) % MAX_PATIENTS)).name,
     (q.data ((q.head + i) % MAX_PATIENTS)).condition])).flatten

/-- `SupplyStack::saveToFile`: three lines per record, bottom to top
(`for i = 0 .. top`), the quantity rendered in decimal. -/
def SupplyStack.saveLines (st : SupplyStack) : List String :=
  ((List.range (st.top + 1).toNat).map (fun i =>
    [(st.data i).type, intRepr (st.data i).quantity, (st.data i).batch])).flatten

/-- `EmergencyMaxHeap::saveToFile`: three lines per case, in heap-array
order `1 .. sz`, the priority rendered in decimal. -/
def EmergencyMaxHeap.saveLines (h : EmergencyMaxHeap) : List String :=
  ((List.range h.sz).map (fun k =>
    [(h.data (k + 1)).patient, (h.data (k + 1)).type,
     intRepr (h.data (k + 1)).priority])).flatten

/-- `AmbulanceCQueue::saveToFile`: one line per plate, in arrival order. -/
def AmbulanceCQueue.saveLines (q : AmbulanceCQueue) : List String :=
  (List.range q.count).map (fun i => (q.data ((q.head + i) % MAX_AMBULANCES)).plate)

/-- The read loop of `PatientQueue::loadFromFile`: take an id line (skip
blank ones), then a name line and a condition line (stopping if either is
missing), `strncpy` the three fields, enqueue, and stop when the queue
rejects the record. -/
def loadPatientsAux : List String → PatientQueue → PatientQueue
  | [], q => q
  | sid :: rest, q =>
    if sid = "" then loadPatientsAux rest q
    else
      match rest with
      | [] => q
      | sname :: rest2 =>
        match rest2 with
        | [] => q
        | scond :: rest3 =>
          let r := PatientQueue.enqueue q (storedPatient sid sname scond)
          if r.1 then loadPatientsAux rest3 r.2 else q

/-- `PatientQueue::loadFromFile` on an existing file: `clear()` then the
read loop. -/
def PatientQueue.loadFromLines (ls : List String) (q : PatientQueue) : PatientQueue :=
  loadPatientsAux ls (CQueue.clear q)

/-- The read loop of `SupplyStack::loadFromFile`: a type line (skip blank
ones), `in >> qty` with `ignore`, a batch line, push, stopping on any
failure. -/
def loadSuppliesAux : List String → SupplyStack → SupplyStack
  | [], st => st
  | stype :: rest, st =>
    if stype = "" then loadSuppliesAux rest st
    else
      match hr : readIntFromStream rest with
      | none => st
      | some (qty, rest2) =>
        match rest2 with
        | [] => st
        | sbatch :: rest3 =>
          let r := SupplyStack.push st (storedSupply stype qty sbatch)
          if r.1 then loadSuppliesAux rest3 r.2 else st
termination_by ls _ => ls.length
decreasing_by
  · simp only [List.length_cons]; omega
  · have := readIntFromStream_shrink rest qty (sbatch :: rest3) hr
    simp only [List.length_cons] at *
    omega

/-- `SupplyStack::loadFromFile` on an existing file. -/
def SupplyStack.loadFromLines (ls : List String) (st : SupplyStack) : SupplyStack :=
  loadSuppliesAux ls (SupplyStack.clear st)

/-- The read loop of `EmergencyMaxHeap::loadFromFile`: a patient line
(skip blank ones), a type line, `in >> prio` with `ignore`, then `push`
(no break on a full heap: `push` itself drops the record). -/
def loadEmergAux : List String → EmergencyMaxHeap → EmergencyMaxHeap
  | [], h => h
  | sp :: rest, h =>
    if sp = "" then loadEmergAux rest h
    else
      match rest with
      | [] => h
      | stype :: rest2 =>
        match hr : readIntFromStream rest2 with
        | none => h
        | some (prio, rest3) =>
          loadEmergAux rest3 (h.push (storedEmerg sp stype prio))
termination_by ls _ => ls.length
decreasing_by
  · simp only [List.length_cons]; omega
  · have := readIntFromStream_shrink _ _ _ hr
    simp only [List.length_cons] at *
    omega

/-- `EmergencyMaxHeap::loadFromFile` on an existing file. -/
def EmergencyMaxHeap.loadFromLines (ls : List String) (h : EmergencyMaxHeap) :
    EmergencyMaxHeap :=
  loadEmergAux ls (EmergencyMaxHeap.clear h)

/-- The read loop of `AmbulanceCQueue::loadFromFile`: one plate line per
record, blank lines skipped, stopping when the queue rejects a record. -/
def loadAmbAux : List String → AmbulanceCQueue → AmbulanceCQueue
  | [], q => q
  | pl :: rest, q =>
    if pl = "" then loadAmbAux rest q
    else
      let r := AmbulanceCQueue.enqueue q { plate := strTrunc 15 pl }
      if r.1 then loadAmbAux rest r.2 else q

/-- `AmbulanceCQueue::loadFromFile` on an existing file. -/
def AmbulanceCQueue.loadFromLines (ls : List String) (q : AmbulanceCQueue) :
    AmbulanceCQueue :=
  loadAmbAux ls (CQueue.clear q)

/-!
### Decimal print / parse roundtrip and string helpers
-/

theorem digitChar_toNat {d : Nat} (h : d < 10) : (digitChar d).toNat = 48 + d := by
  unfold digitChar
  interval_cases d <;> decide

theorem natRepr_eq (n : Nat) :
    natRepr n =
      if n < 10 then [digitChar n] else natRepr (n / 10) ++ [digitChar (n % 10)] := by
  conv_lhs => rw [natRepr]

theorem charIsDigit_digitChar {d : Nat} (h : d < 10) : charIsDigit (digitChar d) = true := by
  simp only [charIsDigit, digitChar_toNat h, decide_eq_true_eq]
  omega

theorem natRepr_ne_nil (n : Nat) : natRepr n ≠ [] := by
  rw [natRepr_eq]
  split_ifs <;> simp

theorem natRepr_digits (n : Nat) : ∀ c ∈ natRepr n, charIsDigit c = true := by
  induction n using Nat.strong_induction_on with
  | _ n ih =>
    rw [natRepr_eq]
    by_cases h10 : n < 10
    · rw [if_pos h10]
      intro c hc
      simp only [List.mem_singleton] at hc
      subst hc
      exact charIsDigit_digitChar h10
    · rw [if_neg h10]
      intro c hc
      rw [List.mem_append] at hc
      rcases hc with hc | hc
      · exact ih (n / 10) (by omega) c hc
      · simp only [List.mem_singleton] at hc
        subst hc
        exact charIsDigit_digitChar (by omega)

theorem digitsVal_append (l1 l2 : List Char) (hd : ∀ c ∈ l1, charIsDigit c = true) :
    ∀ acc, digitsVal acc (l1 ++ l2) = digitsVal (digitsVal acc l1) l2 := by
  induction l1 with
  | nil => intro acc; simp [digitsVal]
  | cons c cs ihc =>
      intro acc
      have hc : charIsDigit c = true := hd c (by simp)
      simp only [List.cons_append, digitsVal, if_pos hc]
      exact ihc (fun c' hc' => hd c' (List.mem_cons_of_mem _ hc')) _

theorem digitsVal_natRepr (n : Nat) :
    ∀ acc, digitsVal acc (natRepr n) = acc * 10 ^ (natRepr n).length + n := by
  induction n using Nat.strong_induction_on with
  | _ n ih =>
    intro acc
    rw [natRepr_eq]
    by_cases h10 : n < 10
    · rw [if_pos h10]
      have hd := charIsDigit_digitChar h10
      simp only [digitsVal, if_pos hd, digitChar_toNat h10, List.length_singleton, pow_one]
      omega
    · rw [if_neg h10]
      rw [digitsVal_append _ _ (natRepr_digits (n / 10)) acc]
      rw [ih (n / 10) (by omega) acc]
      have hd := charIsDigit_digitChar (show n % 10 < 10 by omega)
      simp only [digitsVal, if_pos hd, digitChar_toNat (show n % 10 < 10 by omega),
        List.length_append, List.length_singleton]
      rw [pow_succ, ← mul_assoc]
      generalize acc * 10 ^ (natRepr (n / 10)).length = X
      omega

theorem parseDigits_natRepr (n : Nat) : parseDigits (natRepr n) = some n := by
  obtain ⟨c, cs, hcons⟩ : ∃ c cs, natRepr n = c :: cs := by
    rcases hnr : natRepr n with _ | ⟨c, cs⟩
    · exact absurd hnr (natRepr_ne_nil n)
    · exact ⟨c, cs, rfl⟩
  rw [hcons]
  have hc : charIsDigit c = true := natRepr_digits n c (by rw [hcons]; simp)
  simp only [parseDigits, if_pos hc]
  rw [← hcons, digitsVal_natRepr n 0]
  simp

theorem charIsDigit_not_space {c : Char} (h : charIsDigit c = true) :
    charIsSpace c = false := by
  simp only [charIsDigit, decide_eq_true_eq] at h
  simp only [charIsSpace, decide_eq_false_iff_not]
  omega

theorem charIsDigit_ne_dash {c : Char} (h : charIsDigit c = true) : c ≠ '-' := by
  intro hc
  subst hc
  exact absurd h (by decide)

theorem charIsDigit_ne_plus {c : Char} (h : charIsDigit c = true) : c ≠ '+' := by
  intro hc
  subst hc
  exact absurd h (by decide)

theorem readIntFromStream_cons_tok (l : String) (rest : List String) (c : Char)
    (cs : List Char) (hdw : l.data.dropWhile charIsSpace = c :: cs) :
    readIntFromStream (l :: rest) =
      match parseIntTok (c :: cs) with
      | some v => some (v, rest)
      | none => none := by
  simp only [readIntFromStream]
  rw [hdw]

theorem parseIntTok_natRepr (m : Nat) : parseIntTok (natRepr m) = some (m : Int) := by
  obtain ⟨c, cs, hcons⟩ : ∃ c cs, natRepr m = c :: cs := by
    rcases hnr : natRepr m with _ | ⟨c, cs⟩
    · exact absurd hnr (natRepr_ne_nil m)
    · exact ⟨c, cs, rfl⟩
  have hc : charIsDigit c = true := natRepr_digits m c (by rw [hcons]; simp)
  rw [hcons]
  simp only [parseIntTok, if_neg (charIsDigit_ne_dash hc), if_neg (charIsDigit_ne_plus hc)]
  rw [← hcons, parseDigits_natRepr]
  rfl

/-- Round trip of `operator<<` and `operator>>` on one `int`: the decimal
line written by a save is read back as the same value, consuming exactly
that line. -/
theorem readIntFromStream_intRepr (i : Int) (rest : List String) :
    readIntFromStream (intRepr i :: rest) = some (i, rest) := by
  by_cases hneg : i < 0
  · have hdata : (intRepr i).data = '-' :: natRepr ((-i).toNat) := by
      unfold intRepr
      rw [if_pos hneg]
    have hdw : (intRepr i).data.dropWhile charIsSpace = '-' :: natRepr ((-i).toNat) := by
      rw [hdata, List.dropWhile_cons, if_neg (by decide)]
    rw [readIntFromStream_cons_tok _ _ _ _ hdw]
    simp only [parseIntTok, if_pos rfl]
    rw [parseDigits_natRepr]
    show some (-(((-i).toNat : Nat) : Int), rest) = some (i, rest)
    have : -(((-i).toNat : Nat) : Int) = i := by omega
    rw [this]
  · have hdata : (intRepr i).data = natRepr i.toNat := by
      unfold intRepr
      rw [if_neg hneg]
    obtain ⟨c, cs, hcons⟩ : ∃ c cs, natRepr i.toNat = c :: cs := by
      rcases hnr : natRepr i.toNat with _ | ⟨c, cs⟩
      · exact absurd hnr (natRepr_ne_nil _)
      · exact ⟨c, cs, rfl⟩
    have hc : charIsDigit c = true := natRepr_digits _ c (by rw [hcons]; simp)
    have hdw : (intRepr i).data.dropWhile charIsSpace = c :: cs := by
      rw [hdata, hcons, List.dropWhile_cons, if_neg (by rw [charIsDigit_not_space hc]; simp)]
    rw [readIntFromStream_cons_tok _ _ _ _ hdw]
    rw [← hcons, parseIntTok_natRepr]
    have : ((i.toNat : Nat) : Int) = i := by omega
    rw [this]

theorem strTrunc_of_le {n : Nat} {s : String} (h : s.data.length ≤ n) :
    strTrunc n s = s := by
  obtain ⟨l⟩ := s
  unfold strTrunc
  exact congrArg String.mk (List.take_of_length_le h)

/-- `intRepr` never renders the empty string. -/
theorem intRepr_ne_empty (i : Int) : intRepr i ≠ "" := by
  unfold intRepr
  split_ifs
  · intro h
    have := congrArg String.data h
    simp at this
  · intro h
    have := congrArg String.data h
    simp only at this
    exact natRepr_ne_nil _ this

theorem safe_getline_fits {line : String} {cap : Nat} (hfit : line.data.length + 1 ≤ cap)
    (hclean : ∀ c ∈ line.data, c.toNat ≠ 10 ∧ c.toNat ≠ 13) :
    safe_getline line cap = line := by
  obtain ⟨l⟩ := line
  unfold safe_getline
  rw [if_pos hfit]
  have hdw : l.reverse.dropWhile (fun c => decide (c.toNat = 10 ∨ c.toNat = 13)) =
      l.reverse := by
    rcases hrev : l.reverse with _ | ⟨c, cs⟩
    · simp
    · rw [List.dropWhile_cons, if_neg]
      have hcmem : c ∈ l := by
        rw [← List.mem_reverse, hrev]
        simp
      have := hclean c hcmem
      simp only [decide_eq_true_eq]
      omega
  show String.mk ((l.reverse.dropWhile _).reverse) = String.mk l
  rw [hdw, List.reverse_reverse]

theorem safe_getline_overflow {line : String} {cap : Nat}
    (h : cap ≤ line.data.length) : safe_getline line cap = "" := by
  unfold safe_getline
  rw [if_neg (by omega)]

/-!
### Round trips of save / restore
-/

/-- Well-formedness of a stored patient: the C string fields fit their
buffers, and the id is non-blank (a blank id line is treated as
record-boundary noise by the loader). -/
abbrev PatientRecWF (p : Patient) : Prop :=
  p.id ≠ "" ∧ CStr 15 p.id ∧ CStr 49 p.name ∧ CStr 29 p.condition

/-- Well-formedness of a stored supply record. -/
abbrev SupplyRecWF (s : Supply) : Prop :=
  s.type ≠ "" ∧ CStr 29 s.type ∧ CStr 19 s.batch

/-- Well-formedness of a stored emergency case. -/
abbrev EmergRecWF (e : EmergencyCase) : Prop :=
  e.patient ≠ "" ∧ CStr 49 e.patient ∧ CStr 39 e.type

/-- Well-formedness of a stored ambulance record. -/
abbrev AmbRecWF (a : Ambulance) : Prop :=
  a.plate ≠ "" ∧ CStr 15 a.plate

/-- The lines a list of patients occupies on disk. -/
def patientLines (ps : List Patient) : List String :=
  (ps.map (fun p => [p.id, p.name, p.condition])).flatten

theorem saveLines_eq_patientLines (q : PatientQueue) :
    PatientQueue.saveLines q = patientLines (CQueue.toList MAX_PATIENTS q) := by
  unfold PatientQueue.saveLines patientLines CQueue.toList
  rw [List.map_map]
  rfl

theorem loadPatientsAux_append (ps : List Patient) :
    ∀ (suffix : List String) (q : PatientQueue), CQueue.WF MAX_PATIENTS q →
      q.count + ps.length ≤ MAX_PATIENTS →
      (∀ p ∈ ps, PatientRecWF p) →
      loadPatientsAux (patientLines ps ++ suffix) q =
        loadPatientsAux suffix (CQueue.enqueueAll MAX_PATIENTS ps q) := by
  induction ps with
  | nil => intro suffix q _ _ _; rfl
  | cons p ps' ih =>
      intro suffix q hwf hfit hrec
      obtain ⟨hid, hcid, hcname, hccond⟩ := hrec p (by simp)
      have hlines : patientLines (p :: ps') ++ suffix =
          p.id :: p.name :: p.condition :: (patientLines ps' ++ suffix) := by
        simp [patientLines]
      rw [hlines]
      have hstored : storedPatient p.id p.name p.condition = p := by
        unfold storedPatient
        rw [strTrunc_of_le hcid.1, strTrunc_of_le hcname.1, strTrunc_of_le hccond.1]
      have hlt : q.count < MAX_PATIENTS := by
        simp only [List.length_cons] at hfit
        omega
      obtain ⟨q2, heq, hwf2, _, hcnt2⟩ := CQueue.enqueue_ok p hwf hlt
      simp only [loadPatientsAux, if_neg hid, hstored, PatientQueue.enqueue, heq, if_true]
      rw [ih suffix q2 hwf2 ?_ (fun p' hp' => hrec p' (List.mem_cons_of_mem _ hp'))]
      · simp only [CQueue.enqueueAll, PatientQueue.enqueue, heq]
      · rw [hcnt2]
        simp only [List.length_cons] at hfit
        omega

theorem patient_roundtrip (q q' : PatientQueue)
    (hwf : CQueue.WF MAX_PATIENTS q)
    (hrec : ∀ p ∈ CQueue.toList MAX_PATIENTS q, PatientRecWF p) :
    CQueue.toList MAX_PATIENTS
        (PatientQueue.loadFromLines (PatientQueue.saveLines q) q') =
      CQueue.toList MAX_PATIENTS q := by
  unfold PatientQueue.loadFromLines
  rw [saveLines_eq_patientLines]
  have h0 : CQueue.WF MAX_PATIENTS (CQueue.clear q') := CQueue.WF_clear (by decide) q'
  have hfit : (CQueue.clear q').count + (CQueue.toList MAX_PATIENTS q).length ≤
      MAX_PATIENTS := by
    rw [CQueue.length_toList]
    have := hwf.2.1
    simp only [CQueue.clear]
    omega
  have happ := loadPatientsAux_append (CQueue.toList MAX_PATIENTS q) []
    (CQueue.clear q') h0 hfit hrec
  rw [List.append_nil] at happ
  rw [happ]
  show CQueue.toList MAX_PATIENTS
      (CQueue.enqueueAll MAX_PATIENTS (CQueue.toList MAX_PATIENTS q) (CQueue.clear q')) =
    CQueue.toList MAX_PATIENTS q
  obtain ⟨_, htl⟩ :=
    CQueue.enqueueAll_toList (CQueue.toList MAX_PATIENTS q) (CQueue.clear q') h0 hfit
  rw [htl, CQueue.toList_clear]
  simp

/-- The lines a list of ambulances occupies on disk. -/
def ambLines (as : List Ambulance) : List String :=
  as.map (fun a => a.plate)

theorem saveLines_eq_ambLines (q : AmbulanceCQueue) :
    AmbulanceCQueue.saveLines q = ambLines (CQueue.toList MAX_AMBULANCES q) := by
  unfold AmbulanceCQueue.saveLines ambLines CQueue.toList
  rw [List.map_map]
  rfl

theorem loadAmbAux_append (as : List Ambulance) :
    ∀ (suffix : List String) (q : AmbulanceCQueue), CQueue.WF MAX_AMBULANCES q →
      q.count + as.length ≤ MAX_AMBULANCES →
      (∀ a ∈ as, AmbRecWF a) →
      loadAmbAux (ambLines as ++ suffix) q =
        loadAmbAux suffix (CQueue.enqueueAll MAX_AMBULANCES as q) := by
  induction as with
  | nil => intro suffix q _ _ _; rfl
  | cons a as' ih =>
      intro suffix q hwf hfit hrec
      obtain ⟨hpl, hcpl⟩ := hrec a (by simp)
      have hlines : ambLines (a :: as') ++ suffix =
          a.plate :: (ambLines as' ++ suffix) := by
        simp [ambLines]
      rw [hlines]
      have hstored : ({ plate := strTrunc 15 a.plate } : Ambulance) = a := by
        rw [strTrunc_of_le hcpl.1]
      have hlt : q.count < MAX_AMBULANCES := by
        simp only [List.length_cons] at hfit
        omega
      obtain ⟨q2, heq, hwf2, _, hcnt2⟩ := CQueue.enqueue_ok a hwf hlt
      simp only [loadAmbAux, if_neg hpl, hstored, AmbulanceCQueue.enqueue, heq, if_true]
      rw [ih suffix q2 hwf2 ?_ (fun a' ha' => hrec a' (List.mem_cons_of_mem _ ha'))]
      · simp only [CQueue.enqueueAll, AmbulanceCQueue.enqueue, heq]
      · rw [hcnt2]
        simp only [List.length_cons] at hfit
        omega

theorem amb_roundtrip (q q' : AmbulanceCQueue)
    (hwf : CQueue.WF MAX_AMBULANCES q)
    (hrec : ∀ a ∈ CQueue.toList MAX_AMBULANCES q, AmbRecWF a) :
    CQueue.toList MAX_AMBULANCES
        (AmbulanceCQueue.loadFromLines (AmbulanceCQueue.saveLines q) q') =
      CQueue.toList MAX_AMBULANCES q := by
  unfold AmbulanceCQueue.loadFromLines
  rw [saveLines_eq_ambLines]
  have h0 : CQueue.WF MAX_AMBULANCES (CQueue.clear q') := CQueue.WF_clear (by decide) q'
  have hfit : (CQueue.clear q').count + (CQueue.toList MAX_AMBULANCES q).length ≤
      MAX_AMBULANCES := by
    rw [CQueue.length_toList]
    have := hwf.2.1
    simp only [CQueue.clear]
    omega
  have happ := loadAmbAux_append (CQueue.toList MAX_AMBULANCES q) []
    (CQueue.clear q') h0 hfit hrec
  rw [List.append_nil] at happ
  rw [happ]
  show CQueue.toList MAX_AMBULANCES
      (CQueue.enqueueAll MAX_AMBULANCES (CQueue.toList MAX_AMBULANCES q)
        (CQueue.clear q')) =
    CQueue.toList MAX_AMBULANCES q
  obtain ⟨_, htl⟩ :=
    CQueue.enqueueAll_toList (CQueue.toList MAX_AMBULANCES q) (CQueue.clear q') h0 hfit
  rw [htl, CQueue.toList_clear]
  simp

/-- The lines a list of supply records occupies on disk. -/
def supplyLines (ss : List Supply) : List String :=
  (ss.map (fun s => [s.type, intRepr s.quantity, s.batch])).flatten

theorem saveLines_eq_supplyLines (st : SupplyStack) :
    SupplyStack.saveLines st = supplyLines (SupplyStack.toList st) := by
  unfold SupplyStack.saveLines supplyLines SupplyStack.toList
  rw [List.map_map]
  rfl

/-- Push a whole list of records (ignoring the result flags). -/
def SupplyStack.pushAll : List Supply → SupplyStack → SupplyStack
  | [], st => st
  | s :: ss, st => SupplyStack.pushAll ss (st.push s).2

theorem SupplyStack.pushAll_toList (ss : List Supply) :
    ∀ st : SupplyStack, -1 ≤ st.top →
      st.top + ss.length ≤ (MAX_SUPPLIES : Int) - 1 →
      (SupplyStack.pushAll ss st).top = st.top + ss.length ∧
      SupplyStack.toList (SupplyStack.pushAll ss st) = SupplyStack.toList st ++ ss := by
  induction ss with
  | nil => intro st h1 _; exact ⟨by simp [SupplyStack.pushAll], by simp [SupplyStack.pushAll]⟩
  | cons s ss' ih =>
      intro st h1 h2
      obtain ⟨st2, heq, htop2, htl2⟩ := SupplyStack.push_ok s h1
        (by simp only [List.length_cons] at h2; push_cast at h2; omega)
      simp only [SupplyStack.pushAll, heq]
      obtain ⟨hb, hc⟩ := ih st2 (by omega)
        (by rw [htop2]; simp only [List.length_cons] at h2 ⊢; push_cast at h2 ⊢; omega)
      refine ⟨?_, ?_⟩
      · rw [hb, htop2]
        simp only [List.length_cons]
        push_cast
        omega
      · rw [hc, htl2]
        simp

theorem loadSuppliesAux_append (ss : List Supply) :
    ∀ (suffix : List String) (st : SupplyStack), -1 ≤ st.top →
      st.top + ss.length ≤ (MAX_SUPPLIES : Int) - 1 →
      (∀ s ∈ ss, SupplyRecWF s) →
      loadSuppliesAux (supplyLines ss ++ suffix) st =
        loadSuppliesAux suffix (SupplyStack.pushAll ss st) := by
  induction ss with
  | nil => intro suffix st _ _ _; rfl
  | cons s ss' ih =>
      intro suffix st h1 h2 hrec
      obtain ⟨hty, hcty, hcb⟩ := hrec s (by simp)
      have hlines : supplyLines (s :: ss') ++ suffix =
          s.type :: intRepr s.quantity :: s.batch :: (supplyLines ss' ++ suffix) := by
        simp [supplyLines]
      rw [hlines]
      have hstored : storedSupply s.type s.quantity s.batch = s := by
        unfold storedSupply
        rw [strTrunc_of_le hcty.1, strTrunc_of_le hcb.1]
      obtain ⟨st2, heq, htop2, htl2⟩ := SupplyStack.push_ok s h1
        (by simp only [List.length_cons] at h2; push_cast at h2; omega)
      simp only [loadSuppliesAux, if_neg hty]
      split
      · rename_i hnone
        rw [readIntFromStream_intRepr] at hnone
        exact absurd hnone (by simp)
      · rename_i qty rest2 hsome
        rw [readIntFromStream_intRepr] at hsome
        have hq : qty = s.quantity := (congrArg Prod.fst (Option.some.inj hsome)).symm
        have hr2 : rest2 = s.batch :: (supplyLines ss' ++ suffix) :=
          (congrArg Prod.snd (Option.some.inj hsome)).symm
        subst hq
        subst hr2
        simp only [hstored, heq, if_true]
        rw [ih suffix st2 (by omega)
          (by rw [htop2]; simp only [List.length_cons] at h2 ⊢; push_cast at h2 ⊢; omega)
          (fun s' hs' => hrec s' (List.mem_cons_of_mem _ hs'))]
        simp only [SupplyStack.pushAll, heq]

theorem supply_roundtrip (st st' : SupplyStack)
    (hwf : SupplyStack.WF st)
    (hrec : ∀ s ∈ SupplyStack.toList st, SupplyRecWF s) :
    SupplyStack.toList (SupplyStack.loadFromLines (SupplyStack.saveLines st) st') =
      SupplyStack.toList st := by
  unfold SupplyStack.loadFromLines
  rw [saveLines_eq_supplyLines]
  have h0 : -1 ≤ (SupplyStack.clear st').top := by simp [SupplyStack.clear]
  have hlen : (((SupplyStack.toList st).length : Nat) : Int) = st.top + 1 := by
    have h1 : (SupplyStack.toList st).length = (st.top + 1).toNat := by
      simp [SupplyStack.toList]
    rw [h1]
    have := hwf.1
    omega
  have hfit : (SupplyStack.clear st').top + (SupplyStack.toList st).length ≤
      (MAX_SUPPLIES : Int) - 1 := by
    show (-1 : Int) + (SupplyStack.toList st).length ≤ (MAX_SUPPLIES : Int) - 1
    rw [hlen]
    have := hwf.2
    simp only [MAX_SUPPLIES] at *
    omega
  have happ := loadSuppliesAux_append (SupplyStack.toList st) [] (SupplyStack.clear st')
    h0 hfit hrec
  rw [List.append_nil] at happ
  rw [happ]
  simp only [loadSuppliesAux]
  obtain ⟨_, htl⟩ := SupplyStack.pushAll_toList (SupplyStack.toList st)
    (SupplyStack.clear st') h0 hfit
  rw [htl]
  have hclr : SupplyStack.toList (SupplyStack.clear st') = [] := by
    simp [SupplyStack.toList, SupplyStack.clear]
  rw [hclr]
  simp

/-- A failing record head truncates the supply restore: the processed
prefix is kept, nothing further is consulted. -/
theorem loadSuppliesAux_break (st : SupplyStack) (t : String) (T' : List String)
    (ht : t ≠ "")
    (hbad : readIntFromStream T' = none ∨ ∃ v, readIntFromStream T' = some (v, [])) :
    loadSuppliesAux (t :: T') st = st := by
  simp only [loadSuppliesAux, if_neg ht]
  rcases hbad with hb | ⟨v, hb⟩
  · split
    · rfl
    · rename_i qty rest2 hsome
      rw [hb] at hsome
      exact absurd hsome (by simp)
  · split
    · rfl
    · rename_i qty rest2 hsome
      rw [hb] at hsome
      have hr2 : rest2 = [] := (congrArg Prod.snd (Option.some.inj hsome)).symm
      subst hr2
      rfl

/-!
### Heap persistence: same multiset of records, heap shape rebuilt
-/

/-- Occurrence count of a record in a list (the multiset view of the
heap's contents). -/
def countRec (x : EmergencyCase) : List EmergencyCase → Nat
  | [] => 0
  | y :: l => (if y = x then 1 else 0) + countRec x l

theorem countRec_append (x : EmergencyCase) (l1 l2 : List EmergencyCase) :
    countRec x (l1 ++ l2) = countRec x l1 + countRec x l2 := by
  induction l1 with
  | nil => simp [countRec]
  | cons y l ih =>
      show (if y = x then 1 else 0) + countRec x (l ++ l2) =
        ((if y = x then 1 else 0) + countRec x l) + countRec x l2
      rw [ih]
      omega

theorem countRec_map_range (f : Nat → EmergencyCase) (n : Nat) (x : EmergencyCase) :
    countRec x ((List.range n).map f) = ∑ k ∈ Finset.range n, if f k = x then 1 else 0 := by
  induction n with
  | zero => simp [countRec]
  | succ n ihn =>
      rw [List.range_succ, List.map_append, countRec_append, Finset.sum_range_succ, ihn]
      simp [countRec]

theorem heapSwap_self (d : Nat → EmergencyCase) (i : Nat) :
    ∀ k, heapSwap d i i k = d k := by
  intro k
  by_cases h : k = i <;> simp [heapSwap, h]

theorem countRec_swap (d : Nat → EmergencyCase) (i j sz : Nat)
    (hi1 : 1 ≤ i) (hisz : i ≤ sz) (hj1 : 1 ≤ j) (hjsz : j ≤ sz) (x : EmergencyCase) :
    countRec x ((List.range sz).map (fun k => heapSwap d i j (k + 1))) =
      countRec x ((List.range sz).map (fun k => d (k + 1))) := by
  rw [countRec_map_range, countRec_map_range]
  by_cases hij : i = j
  · subst hij
    exact Finset.sum_congr rfl (fun k _ => by rw [heapSwap_self])
  · have hii : i - 1 + 1 = i := by omega
    have hjj : j - 1 + 1 = j := by omega
    refine Finset.sum_nbij'
      (fun k => if k = i - 1 then j - 1 else if k = j - 1 then i - 1 else k)
      (fun k => if k = i - 1 then j - 1 else if k = j - 1 then i - 1 else k)
      ?_ ?_ ?_ ?_ ?_
    · intro a ha
      simp only [Finset.mem_range] at *
      split_ifs <;> omega
    · intro a ha
      simp only [Finset.mem_range] at *
      split_ifs <;> omega
    · intro a _
      simp only []
      split_ifs <;> omega
    · intro a _
      simp only []
      split_ifs <;> omega
    · intro a ha
      simp only [Finset.mem_range] at ha
      simp only []
      by_cases h1 : a = i - 1
      · subst h1
        simp [hii, hjj, heapSwap_left]
      · by_cases h2 : a = j - 1
        · subst h2
          simp [h1, hii, hjj, heapSwap_right]
        · simp [h1, h2,
            heapSwap_other _ _ _ (show a + 1 ≠ i by omega) (show a + 1 ≠ j by omega)]

theorem siftUp_count (sz : Nat) :
    ∀ i d, 1 ≤ i → i ≤ sz → ∀ x,
      countRec x ((List.range sz).map (fun k => siftUp d i (k + 1))) =
        countRec x ((List.range sz).map (fun k => d (k + 1))) := by
  intro i
  induction i using Nat.strong_induction_on with
  | _ i ih =>
    intro d hi1 hisz x
    rw [siftUp_eq]
    by_cases hcond : 1 < i ∧ (d (i / 2)).priority < (d i).priority
    · rw [if_pos hcond]
      rw [ih (i / 2) (by omega) (heapSwap d i (i / 2)) (by omega) (by omega) x]
      exact countRec_swap d i (i / 2) sz hi1 hisz (by omega) (by omega) x
    · rw [if_neg hcond]

theorem EmergencyMaxHeap.push_sz {h : EmergencyMaxHeap} (e : EmergencyCase)
    (hsz : h.sz < MAX_EMERG) : (h.push e).sz = h.sz + 1 := by
  unfold EmergencyMaxHeap.push
  rw [if_neg (by omega)]

theorem heapToList_count_push (h : EmergencyMaxHeap) (e : EmergencyCase)
    (hsz : h.sz < MAX_EMERG) (x : EmergencyCase) :
    countRec x (heapToList (h.push e)) =
      countRec x (heapToList h) + (if e = x then 1 else 0) := by
  unfold EmergencyMaxHeap.push heapToList
  rw [if_neg (by omega)]
  show countRec x ((List.range (h.sz + 1)).map
      (fun k => siftUp (upd h.data (h.sz + 1) e) (h.sz + 1) (k + 1))) = _
  rw [siftUp_count (h.sz + 1) (h.sz + 1) _ (by omega) (le_refl _) x]
  rw [List.range_succ, List.map_append, countRec_append]
  congr 1
  · refine congrArg (countRec x) ?_
    apply List.map_congr_left
    intro k hk
    exact upd_other _ _ _ (by have := List.mem_range.mp hk; omega)
  · simp [countRec, upd_self]

/-- Re-insert a whole list of cases through `push`. -/
def EmergencyMaxHeap.pushAll : List EmergencyCase → EmergencyMaxHeap → EmergencyMaxHeap
  | [], h => h
  | e :: es, h => EmergencyMaxHeap.pushAll es (h.push e)

theorem EmergencyMaxHeap.pushAll_sz (es : List EmergencyCase) :
    ∀ h : EmergencyMaxHeap, h.sz + es.length ≤ MAX_EMERG →
      (EmergencyMaxHeap.pushAll es h).sz = h.sz + es.length := by
  induction es with
  | nil => intro h _; simp [EmergencyMaxHeap.pushAll]
  | cons e es' ih =>
      intro h hfit
      simp only [List.length_cons] at hfit
      simp only [EmergencyMaxHeap.pushAll]
      rw [ih (h.push e) (by rw [EmergencyMaxHeap.push_sz e (by omega)]; omega),
        EmergencyMaxHeap.push_sz e (by omega)]
      simp only [List.length_cons]
      omega

theorem EmergencyMaxHeap.pushAll_count (es : List EmergencyCase) :
    ∀ h : EmergencyMaxHeap, h.sz + es.length ≤ MAX_EMERG → ∀ x,
      countRec x (heapToList (EmergencyMaxHeap.pushAll es h)) =
        countRec x (heapToList h) + countRec x es := by
  induction es with
  | nil => intro h _ x; simp [EmergencyMaxHeap.pushAll, countRec]
  | cons e es' ih =>
      intro h hfit x
      simp only [List.length_cons] at hfit
      simp only [EmergencyMaxHeap.pushAll]
      rw [ih (h.push e) (by rw [EmergencyMaxHeap.push_sz e (by omega)]; omega) x,
        heapToList_count_push h e (by omega) x]
      simp only [countRec]
      omega

theorem EmergencyMaxHeap.pushAll_IsHeap (es : List EmergencyCase) :
    ∀ h : EmergencyMaxHeap, IsHeap h → IsHeap (EmergencyMaxHeap.pushAll es h) := by
  induction es with
  | nil => intro h hh; exact hh
  | cons e es' ih =>
      intro h hh
      exact ih (h.push e) (push_IsHeap e hh)

/-- The lines a list of emergency cases occupies on disk. -/
def emergLines (es : List EmergencyCase) : List String :=
  (es.map (fun e => [e.patient, e.type, intRepr e.priority])).flatten

theorem saveLines_eq_emergLines (h : EmergencyMaxHeap) :
    EmergencyMaxHeap.saveLines h = emergLines (heapToList h) := by
  unfold EmergencyMaxHeap.saveLines emergLines heapToList
  rw [List.map_map]
  rfl

theorem loadEmergAux_append (es : List EmergencyCase) :
    ∀ (suffix : List String) (h : EmergencyMaxHeap),
      (∀ e ∈ es, EmergRecWF e) →
      loadEmergAux (emergLines es ++ suffix) h =
        loadEmergAux suffix (EmergencyMaxHeap.pushAll es h) := by
  induction es with
  | nil => intro suffix h _; rfl
  | cons e es' ih =>
      intro suffix h hrec
      obtain ⟨hpa, hcpa, hcty⟩ := hrec e (by simp)
      have hlines : emergLines (e :: es') ++ suffix =
          e.patient :: e.type :: intRepr e.priority :: (emergLines es' ++ suffix) := by
        simp [emergLines]
      rw [hlines]
      have hstored : storedEmerg e.patient e.type e.priority = e := by
        unfold storedEmerg
        rw [strTrunc_of_le hcpa.1, strTrunc_of_le hcty.1]
      simp only [loadEmergAux, if_neg hpa]
      split
      · rename_i hnone
        rw [readIntFromStream_intRepr] at hnone
        exact absurd hnone (by simp)
      · rename_i prio rest3 hsome
        rw [readIntFromStream_intRepr] at hsome
        have hq : prio = e.priority := (congrArg Prod.fst (Option.some.inj hsome)).symm
        have hr3 : rest3 = emergLines es' ++ suffix :=
          (congrArg Prod.snd (Option.some.inj hsome)).symm
        subst hq
        subst hr3
        rw [hstored]
        rw [ih suffix (h.push e) (fun e' he' => hrec e' (List.mem_cons_of_mem _ he'))]
        simp only [EmergencyMaxHeap.pushAll]

theorem emerg_roundtrip (h h' : EmergencyMaxHeap)
    (hsz : h.sz ≤ MAX_EMERG)
    (hrec : ∀ e ∈ heapToList h, EmergRecWF e) :
    (∀ x, countRec x (heapToList
        (EmergencyMaxHeap.loadFromLines (EmergencyMaxHeap.saveLines h) h')) =
      countRec x (heapToList h)) ∧
    IsHeap (EmergencyMaxHeap.loadFromLines (EmergencyMaxHeap.saveLines h) h') ∧
    (EmergencyMaxHeap.loadFromLines (EmergencyMaxHeap.saveLines h) h').sz = h.sz := by
  unfold EmergencyMaxHeap.loadFromLines
  rw [saveLines_eq_emergLines]
  have hlen : (heapToList h).length = h.sz := by simp [heapToList]
  have hclr : (EmergencyMaxHeap.clear h').sz = 0 := rfl
  have hfit : (EmergencyMaxHeap.clear h').sz + (heapToList h).length ≤ MAX_EMERG := by
    rw [hclr, hlen]
    omega
  have happ := loadEmergAux_append (heapToList h) [] (EmergencyMaxHeap.clear h') hrec
  rw [List.append_nil] at happ
  rw [happ]
  simp only [loadEmergAux]
  have hclrheap : IsHeap (EmergencyMaxHeap.clear h') := by
    intro i h2 hsz'
    rw [hclr] at hsz'
    omega
  have hclrlist : heapToList (EmergencyMaxHeap.clear h') = [] := by
    simp [heapToList, EmergencyMaxHeap.clear]
  refine ⟨?_, EmergencyMaxHeap.pushAll_IsHeap _ _ hclrheap, ?_⟩
  · intro x
    rw [EmergencyMaxHeap.pushAll_count (heapToList h) (EmergencyMaxHeap.clear h') hfit x,
      hclrlist]
    simp [countRec]
  · rw [EmergencyMaxHeap.pushAll_sz (heapToList h) (EmergencyMaxHeap.clear h') hfit,
      hclr, hlen]
    omega

/-- A failing record head truncates the emergency restore. -/
theorem loadEmergAux_break (h : EmergencyMaxHeap) (sp : String) (T' : List String)
    (hsp : sp ≠ "")
    (hbad : T' = [] ∨ ∃ st2 T'', T' = st2 :: T'' ∧ readIntFromStream T'' = none) :
    loadEmergAux (sp :: T') h = h := by
  rcases hbad with hb | ⟨st2, T'', hb, hnone⟩
  · subst hb
    simp only [loadEmergAux, if_neg hsp]
  · subst hb
    simp only [loadEmergAux, if_neg hsp]
    split
    · rfl
    · rename_i prio rest3 hsome
      rw [hnone] at hsome
      exact absurd hsome (by simp)

/-!
### Concrete states used to instantiate the claims
-/

def pA : Patient := { id := "P0001", name := "Ann", condition := "Flu" }

def pB : Patient := { id := "P0002", name := "Ben", condition := "Cut" }

/-- A patient with a blank id, as the interactive admission path can
produce (`safe_getline` accepts an empty line and patient.hpp's `enqueue`
does not validate). -/
def badPatient : Patient := { id := "", name := "Bob", condition := "Flu" }

def X1 : Supply := { type := "M", quantity := 1, batch := "b1" }

def X2 : Supply := { type := "G", quantity := 2, batch := "b2" }

def X3 : Supply := { type := "M", quantity := 3, batch := "b3" }

def c2Stack : SupplyStack :=
  (((emptySupplyStack.push X1).2.push X2).2.push X3).2

def a1 : Ambulance := { plate := "AMB-1" }

def a2 : Ambulance := { plate := "AMB-2" }

def a3 : Ambulance := { plate := "AMB-3" }

def c5Q : AmbulanceCQueue := CQueue.enqueueAll MAX_AMBULANCES [a1, a2, a3] emptyAmbQueue

def c4PatientQ : PatientQueue := (PatientQueue.enqueue emptyPatientQueue pA).2

def c4BadQ : PatientQueue := (PatientQueue.enqueue emptyPatientQueue badPatient).2

def c4Supply : SupplyStack := (emptySupplyStack.push X1).2

def fullPQ : PatientQueue :=
  { data := fun _ => pA, head := 0, tail := 0, count := MAX_PATIENTS }

def fullAQ : AmbulanceCQueue :=
  { data := fun _ => a1, head := 0, tail := 0, count := MAX_AMBULANCES }

def e1 : EmergencyCase := { patient := "Eve", type := "Burn", priority := 5 }

def tieD : Nat → EmergencyCase :=
  fun k => { patient := "", type := "", priority := if k = 2 ∨ k = 3 then 5 else 1 }

/-!
### The claims
-/

/-- C1: For the triage heap, after any sequence of `push` and `pop`
operations starting from the fresh heap (a `pop` on the empty heap is a
no-op, so no run underflows), the reachable state satisfies the max-heap
invariant — every element at 1-based index `i ≥ 2` has priority at most
its parent's at `i / 2` — and consequently `top()` (reading index 1)
returns an element whose priority is `≥` the priority of every currently
held element. -/
theorem C1_heap_invariant_reachable (ops : List HeapOp) :
    IsHeap (runHeap ops) ∧
    ∀ i, 1 ≤ i → i ≤ (runHeap ops).sz →
      ((runHeap ops).data i).priority ≤ ((runHeap ops).top).priority :=
  ⟨runHeap_IsHeap ops,
   fun i h1 h2 => IsHeap_root_max (runHeap_IsHeap ops) i h1 h2⟩

/-- C2: The keyed removal of `ui_use_supply_by_type` removes and returns
the most recently pushed record whose stored `type` equals the requested
key — position `idx` in the bottom-to-top traversal, with no later
position matching — and the remaining traversal is the original one with
position `idx` cut out (all other records in their original relative
order). -/
theorem C2_keyed_removal (st : SupplyStack) (key : String) (idx : Nat)
    (hidx : idx < (SupplyStack.toList st).length)
    (hmatch : ((SupplyStack.toList st).getD idx dummySupply).type = key)
    (hlast : ∀ j, idx < j → j < (SupplyStack.toList st).length →
      ((SupplyStack.toList st).getD j dummySupply).type ≠ key) :
    (useSupplyByType st key).1 = some ((SupplyStack.toList st).getD idx dummySupply) ∧
    SupplyStack.toList (useSupplyByType st key).2 =
      (SupplyStack.toList st).take idx ++ (SupplyStack.toList st).drop (idx + 1) :=
  useSupplyByType_spec st key idx hidx hmatch hlast

/-- C2 witness: after pushing X1(type M), X2(type G), X3(type M),
removing by key "M" returns X3 and the remaining traversal is [X1, X2]. -/
theorem C2_witness :
    (useSupplyByType c2Stack "M").1 = some X3 ∧
    SupplyStack.toList (useSupplyByType c2Stack "M").2 = [X1, X2] := by
  have h := C2_keyed_removal c2Stack "M" 2 (by decide) (by decide)
    (fun j h1 h2 => by
      have h3 : (SupplyStack.toList c2Stack).length = 3 := by decide
      rw [h3] at h2
      exact absurd h1 (by omega))
  refine ⟨?_, ?_⟩
  · rw [h.1]
    decide
  · rw [h.2]
    decide

/-- C3: enqueuing E1..En (n ≤ capacity) into the initially empty intake
queue with no interleaved dequeues stores exactly that sequence in
arrival order, and performing n dequeues succeeds each time and returns
E1..En in exactly that order. -/
theorem C3_fifo_order (ps : List Patient) (hn : ps.length ≤ MAX_PATIENTS) :
    CQueue.toList MAX_PATIENTS
        (CQueue.enqueueAll MAX_PATIENTS ps emptyPatientQueue) = ps ∧
    CQueue.drain MAX_PATIENTS ps.length
        (CQueue.enqueueAll MAX_PATIENTS ps emptyPatientQueue) = ps.map some := by
  have hwf0 : CQueue.WF MAX_PATIENTS emptyPatientQueue := ⟨by decide, by decide, by decide⟩
  have hfit : emptyPatientQueue.count + ps.length ≤ MAX_PATIENTS := by
    show 0 + ps.length ≤ MAX_PATIENTS
    omega
  obtain ⟨hwf, htl⟩ := CQueue.enqueueAll_toList ps emptyPatientQueue hwf0 hfit
  have h0 : CQueue.toList MAX_PATIENTS emptyPatientQueue = [] := rfl
  rw [h0] at htl
  simp only [List.nil_append] at htl
  exact ⟨htl, CQueue.drain_toList ps _ hwf htl⟩

/-- C3 witness: two concrete admissions come back out in arrival order. -/
theorem C3_witness :
    CQueue.toList MAX_PATIENTS
        (CQueue.enqueueAll MAX_PATIENTS [pA, pB] emptyPatientQueue) = [pA, pB] ∧
    CQueue.drain MAX_PATIENTS ([pA, pB] : List Patient).length
        (CQueue.enqueueAll MAX_PATIENTS [pA, pB] emptyPatientQueue) =
      ([pA, pB] : List Patient).map some :=
  C3_fifo_order [pA, pB] (by decide)

/-- C4 (amended): save followed by restore into a freshly emptied
component reproduces the same traversal sequence, for every component
state whose records are C-representable (fields fit their `char` buffers
and contain no newline — automatic in the C program) and have a
non-blank first field (id / type / patient / plate; the counterexample
shows a blank first field breaks the round trip).  For the triage heap
the restored state holds the same records (equal occurrence counts for
every case), satisfies the heap max property and has the same size. -/
theorem C4_roundtrip_amended :
    (∀ q q' : PatientQueue, CQueue.WF MAX_PATIENTS q →
      (∀ p ∈ CQueue.toList MAX_PATIENTS q, PatientRecWF p) →
      CQueue.toList MAX_PATIENTS
          (PatientQueue.loadFromLines (PatientQueue.saveLines q) q') =
        CQueue.toList MAX_PATIENTS q) ∧
    (∀ st st' : SupplyStack, SupplyStack.WF st →
      (∀ s ∈ SupplyStack.toList st, SupplyRecWF s) →
      SupplyStack.toList (SupplyStack.loadFromLines (SupplyStack.saveLines st) st') =
        SupplyStack.toList st) ∧
    (∀ h h' : EmergencyMaxHeap, h.sz ≤ MAX_EMERG →
      (∀ e ∈ heapToList h, EmergRecWF e) →
      (∀ x, countRec x (heapToList
          (EmergencyMaxHeap.loadFromLines (EmergencyMaxHeap.saveLines h) h')) =
        countRec x (heapToList h)) ∧
      IsHeap (EmergencyMaxHeap.loadFromLines (EmergencyMaxHeap.saveLines h) h') ∧
      (EmergencyMaxHeap.loadFromLines (EmergencyMaxHeap.saveLines h) h').sz = h.sz) ∧
    (∀ q q' : AmbulanceCQueue, CQueue.WF MAX_AMBULANCES q →
      (∀ a ∈ CQueue.toList MAX_AMBULANCES q, AmbRecWF a) →
      CQueue.toList MAX_AMBULANCES
          (AmbulanceCQueue.loadFromLines (AmbulanceCQueue.saveLines q) q') =
        CQueue.toList MAX_AMBULANCES q) :=
  ⟨patient_roundtrip, supply_roundtrip, emerg_roundtrip, amb_roundtrip⟩

/-- C4 counterexample: a queue holding one patient whose id is the empty
string (reachable through the interactive admission path) does not
round-trip: the saved file starts with a blank id line, the loader skips
it, mis-frames the record and restores an empty queue. -/
theorem C4_counterexample :
    CQueue.toList MAX_PATIENTS
        (PatientQueue.loadFromLines (PatientQueue.saveLines c4BadQ) emptyPatientQueue) ≠
      CQueue.toList MAX_PATIENTS c4BadQ := by
  decide

/-- C4 witness: one-record round trips for the patient queue, the supply
stack and the ambulance queue, and the heap clauses at a concrete state. -/
theorem C4_witness :
    CQueue.toList MAX_PATIENTS
        (PatientQueue.loadFromLines (PatientQueue.saveLines c4PatientQ) emptyPatientQueue) =
      CQueue.toList MAX_PATIENTS c4PatientQ ∧
    SupplyStack.toList
        (SupplyStack.loadFromLines (SupplyStack.saveLines c4Supply) emptySupplyStack) =
      SupplyStack.toList c4Supply ∧
    (EmergencyMaxHeap.loadFromLines (EmergencyMaxHeap.saveLines emptyEmergHeap)
        emptyEmergHeap).sz = emptyEmergHeap.sz ∧
    CQueue.toList MAX_AMBULANCES
        (AmbulanceCQueue.loadFromLines (AmbulanceCQueue.saveLines c5Q) emptyAmbQueue) =
      CQueue.toList MAX_AMBULANCES c5Q :=
  ⟨C4_roundtrip_amended.1 c4PatientQ emptyPatientQueue
      ⟨by decide, by decide, by decide⟩ (by decide),
   C4_roundtrip_amended.2.1 c4Supply emptySupplyStack ⟨by decide, by decide⟩ (by decide),
   (C4_roundtrip_amended.2.2.1 emptyEmergHeap emptyEmergHeap (by decide) (by decide)).2.2,
   C4_roundtrip_amended.2.2.2 c5Q emptyAmbQueue ⟨by decide, by decide, by decide⟩
      (by decide)⟩

/-- C5: for the rotation queue, one `rotateOnce` moves the front element
to the back ([A,B,C] becomes [B,C,A]), `rotateOnce` is the identity on
states holding at most one element, and `count` rotations restore the
original traversal order. -/
theorem C5_rotation (q : AmbulanceCQueue) (hwf : CQueue.WF MAX_AMBULANCES q) :
    (∀ a l', CQueue.toList MAX_AMBULANCES q = a :: l' →
      CQueue.toList MAX_AMBULANCES (AmbulanceCQueue.rotateOnce q) = l' ++ [a]) ∧
    (q.count ≤ 1 → AmbulanceCQueue.rotateOnce q = q) ∧
    CQueue.toList MAX_AMBULANCES (AmbulanceCQueue.rotateOnce^[q.count] q) =
      CQueue.toList MAX_AMBULANCES q := by
  refine ⟨?_, ?_, ?_⟩
  · intro a l' hl
    obtain ⟨_, htl⟩ := rotateOnce_spec q hwf
    rw [htl, hl, List.rotate_cons_succ, List.rotate_zero]
  · intro hle
    rw [AmbulanceCQueue.rotateOnce, if_pos hle]
  · obtain ⟨_, htl⟩ := rotateOnce_iter q.count q hwf
    rw [htl, ← CQueue.length_toList MAX_AMBULANCES q, List.rotate_length]

/-- C5 witness: a three-ambulance roster [a1, a2, a3] rotates to
[a2, a3, a1], and three rotations restore the original order. -/
theorem C5_witness :
    CQueue.toList MAX_AMBULANCES (AmbulanceCQueue.rotateOnce c5Q) = [a2, a3] ++ [a1] ∧
    CQueue.toList MAX_AMBULANCES (AmbulanceCQueue.rotateOnce^[c5Q.count] c5Q) =
      CQueue.toList MAX_AMBULANCES c5Q :=
  ⟨(C5_rotation c5Q ⟨by decide, by decide, by decide⟩).1 a1 [a2, a3] (by decide),
   (C5_rotation c5Q ⟨by decide, by decide, by decide⟩).2.2⟩

/-- C6 (amended): the interactive input path (`safe_getline`) stores an
input line unchanged when it fits the buffer (length ≤ cap − 1 — the
delimiter is checked before the buffer-full condition, so the boundary
line of exactly cap − 1 characters still succeeds) and stores the EMPTY
string — not a truncated prefix — when the line is longer (length ≥
cap); prefix truncation to the declared maximum happens only on the
restore path (`strncpy` into the stored record), where a value longer
than the maximum stores exactly the maximum-length prefix and two
records whose raw values agree up to the prefix lengths compare equal
once stored. -/
theorem C6_truncation_amended :
    (∀ (line : String) (cap : Nat), line.data.length + 1 ≤ cap →
      (∀ c ∈ line.data, c.toNat ≠ 10 ∧ c.toNat ≠ 13) →
      safe_getline line cap = line) ∧
    (∀ (line : String) (cap : Nat), cap ≤ line.data.length →
      safe_getline line cap = "") ∧
    (∀ (stype : String) (q : Int) (b : String), 29 < stype.data.length →
      (storedSupply stype q b).type = strTrunc 29 stype ∧
      ((storedSupply stype q b).type).data.length = 29) ∧
    (∀ (s t : String) (q : Int) (b b2 : String),
      s.data.take 29 = t.data.take 29 → b.data.take 19 = b2.data.take 19 →
      storedSupply s q b = storedSupply t q b2) := by
  refine ⟨fun line cap h1 h2 => safe_getline_fits h1 h2,
    fun line cap h => safe_getline_overflow h, ?_, ?_⟩
  · intro stype q b h
    refine ⟨rfl, ?_⟩
    show (stype.data.take 29).length = 29
    rw [List.length_take]
    omega
  · intro s t q b b2 hs hb
    unfold storedSupply strTrunc
    rw [hs, hb]

/-- C6 counterexample: a 16-character id typed at the admission prompt
(buffer `char id[16]`, declared maximum 15) is stored as the empty
string by `safe_getline`, not as the 15-character prefix the claim
states. -/
theorem C6_counterexample :
    safe_getline "AAAAAAAAAAAAAAAA" 16 = "" ∧
    safe_getline "AAAAAAAAAAAAAAAA" 16 ≠ strTrunc 15 "AAAAAAAAAAAAAAAA" := by
  decide

/-- C7: a record whose expected line is missing or whose integer field
fails to parse truncates the restore at that point: the records restored
before it are kept (the load of the prefix alone), nothing after the
failing record is consulted, and the loader returns normally.  Stated
for the supply loader (failure = `in >> qty` fails at end of input or on
a malformed token, or the batch line is missing) and the emergency
loader (failure = type line missing, or `in >> prio` fails). -/
theorem C7_restore_truncation :
    (∀ (ss : List Supply) (t : String) (T' : List String),
      (∀ s ∈ ss, SupplyRecWF s) → ss.length ≤ MAX_SUPPLIES → t ≠ "" →
      (readIntFromStream T' = none ∨ ∃ v, readIntFromStream T' = some (v, [])) →
      loadSuppliesAux (supplyLines ss ++ (t :: T')) emptySupplyStack =
        loadSuppliesAux (supplyLines ss) emptySupplyStack ∧
      SupplyStack.toList (loadSuppliesAux (supplyLines ss) emptySupplyStack) = ss) ∧
    (∀ (es : List EmergencyCase) (sp : String) (T' : List String),
      (∀ e ∈ es, EmergRecWF e) → sp ≠ "" →
      (T' = [] ∨ ∃ st2 T'', T' = st2 :: T'' ∧ readIntFromStream T'' = none) →
      loadEmergAux (emergLines es ++ (sp :: T')) emptyEmergHeap =
        loadEmergAux (emergLines es) emptyEmergHeap) := by
  constructor
  · intro ss t T' hrec hlen ht hbad
    have h0 : -1 ≤ emptySupplyStack.top := le_refl _
    have hfit : emptySupplyStack.top + ss.length ≤ (MAX_SUPPLIES : Int) - 1 := by
      show (-1 : Int) + ss.length ≤ (MAX_SUPPLIES : Int) - 1
      simp only [MAX_SUPPLIES] at *
      omega
    have happ1 := loadSuppliesAux_append ss (t :: T') emptySupplyStack h0 hfit hrec
    have happ2 := loadSuppliesAux_append ss [] emptySupplyStack h0 hfit hrec
    rw [List.append_nil] at happ2
    constructor
    · rw [happ1, loadSuppliesAux_break _ t T' ht hbad, happ2]
      simp only [loadSuppliesAux]
    · rw [happ2]
      simp only [loadSuppliesAux]
      obtain ⟨_, htl⟩ := SupplyStack.pushAll_toList ss emptySupplyStack h0 hfit
      rw [htl]
      have hemp : SupplyStack.toList emptySupplyStack = [] := rfl
      rw [hemp]
      simp
  · intro es sp T' hrec hsp hbad
    have happ1 := loadEmergAux_append es (sp :: T') emptyEmergHeap hrec
    have happ2 := loadEmergAux_append es [] emptyEmergHeap hrec
    rw [List.append_nil] at happ2
    rw [happ1, loadEmergAux_break _ sp T' hsp hbad, happ2]
    simp only [loadEmergAux]

/-- C7 witness: one good supply record followed by a record whose
quantity line is the unparseable "abc": the restore keeps exactly the
good record; and an emergency file ending after a lone patient line
restores nothing. -/
theorem C7_witness :
    (loadSuppliesAux (supplyLines [X1] ++ ("X" :: ["abc"])) emptySupplyStack =
        loadSuppliesAux (supplyLines [X1]) emptySupplyStack ∧
      SupplyStack.toList (loadSuppliesAux (supplyLines [X1]) emptySupplyStack) = [X1]) ∧
    loadEmergAux (emergLines [] ++ ("X" :: ([] : List String))) emptyEmergHeap =
      loadEmergAux (emergLines []) emptyEmergHeap :=
  ⟨C7_restore_truncation.1 [X1] "X" ["abc"] (by decide) (by decide) (by decide)
      (Or.inl (by decide)),
   C7_restore_truncation.2 [] "X" [] (by decide) (by decide) (Or.inl rfl)⟩

/-- C8: an enqueue on a full queue and a dequeue on an empty queue each
return the failure signal and leave the whole state (count, head, tail,
stored elements) unchanged, for both the patient queue and the ambulance
queue. -/
theorem C8_full_empty_purity :
    (∀ (q : PatientQueue) (p : Patient), q.count = MAX_PATIENTS →
      PatientQueue.enqueue q p = (false, q)) ∧
    (∀ q : PatientQueue, q.count = 0 → PatientQueue.dequeue q = (none, q)) ∧
    (∀ (q : AmbulanceCQueue) (a : Ambulance), q.count = MAX_AMBULANCES →
      AmbulanceCQueue.enqueue q a = (false, q)) ∧
    (∀ q : AmbulanceCQueue, q.count = 0 → AmbulanceCQueue.dequeue q = (none, q)) :=
  ⟨fun q p h => CQueue.enqueue_full _ q p h,
   fun q h => CQueue.dequeue_empty _ q h,
   fun q a h => CQueue.enqueue_full _ q a h,
   fun q h => CQueue.dequeue_empty _ q h⟩

/-- C8 witness: the four failure cases at concrete states. -/
theorem C8_witness :
    PatientQueue.enqueue fullPQ pA = (false, fullPQ) ∧
    PatientQueue.dequeue emptyPatientQueue = (none, emptyPatientQueue) ∧
    AmbulanceCQueue.enqueue fullAQ a1 = (false, fullAQ) ∧
    AmbulanceCQueue.dequeue emptyAmbQueue = (none, emptyAmbQueue) :=
  ⟨C8_full_empty_purity.1 fullPQ pA rfl,
   C8_full_empty_purity.2.1 emptyPatientQueue rfl,
   C8_full_empty_purity.2.2.1 fullAQ a1 rfl,
   C8_full_empty_purity.2.2.2 emptyAmbQueue rfl⟩

/-- C9: `pop` on an empty heap is a no-op; on a non-empty heap it moves
the last element (index `sz`) into slot 1, decrements `sz` and sifts
down; and the sift-down selection prefers the left child on a tie — when
both children are within the heap, strictly greater than the current
node and equal to each other, the walk swaps with the LEFT child `2·i`
(checked first, the right child only replacing on a strictly greater
comparison). -/
theorem C9_extract_max :
    (∀ h : EmergencyMaxHeap, h.sz = 0 → h.pop = h) ∧
    (∀ h : EmergencyMaxHeap, 1 ≤ h.sz →
      h.pop = { data := siftDown (h.sz - 1) (upd h.data 1 (h.data h.sz)) 1,
                sz := h.sz - 1 }) ∧
    (∀ (sz : Nat) (d : Nat → EmergencyCase) (i : Nat), 1 ≤ i → 2 * i + 1 ≤ sz →
      (d (2 * i)).priority = (d (2 * i + 1)).priority →
      (d i).priority < (d (2 * i)).priority →
      siftDown sz d i = siftDown sz (heapSwap d i (2 * i)) (2 * i)) := by
  refine ⟨?_, ?_, ?_⟩
  · intro h h0
    unfold EmergencyMaxHeap.pop
    rw [if_pos h0]
  · intro h h1
    unfold EmergencyMaxHeap.pop
    rw [if_neg (by omega)]
  · intro sz d i hi1 hr heq hlt
    have hm : sdLargest sz d i = 2 * i := by
      unfold sdLargest
      rw [if_pos ⟨by omega, hlt⟩, if_neg ?_]
      intro hB
      exact absurd hB.2 (by rw [heq]; exact lt_irrefl _)
    conv_lhs => rw [siftDown_eq]
    rw [hm, dif_neg (show ¬(2 * i = i) by omega)]

/-- C9 witness: pop of the empty heap is a no-op; pop of a singleton
heap takes the stated move-last-then-sift form; and at a concrete array
whose two children of the root tie at priority 5 above the root's 1, the
sift-down walk picks the left child (index 2). -/
theorem C9_witness :
    emptyEmergHeap.pop = emptyEmergHeap ∧
    (emptyEmergHeap.push e1).pop =
      { data := siftDown ((emptyEmergHeap.push e1).sz - 1)
          (upd (emptyEmergHeap.push e1).data 1
            ((emptyEmergHeap.push e1).data (emptyEmergHeap.push e1).sz)) 1,
        sz := (emptyEmergHeap.push e1).sz - 1 } ∧
    siftDown 3 tieD 1 = siftDown 3 (heapSwap tieD 1 (2 * 1)) (2 * 1) :=
  ⟨C9_extract_max.1 emptyEmergHeap rfl,
   C9_extract_max.2.1 (emptyEmergHeap.push e1) (by decide),
   C9_extract_max.2.2 3 tieD 1 (by decide) (by decide) (by decide) (by decide)⟩

/-- C10: in the single-file program variant (hospital.cpp), enqueue
returns false and leaves the queue unchanged whenever the patient's id
or name is the empty string — regardless of fullness, so `Full` is not
the only cause of an insert failure at that interface. -/
theorem C10_enqueueV2_validation (q : PatientQueue) (p : Patient)
    (hempty : p.id = "" ∨ p.name = "") :
    PatientQueue.enqueueV2 q p = (false, q) := by
  unfold PatientQueue.enqueueV2
  by_cases hfull : q.count = MAX_PATIENTS
  · rw [if_pos hfull]
  · rw [if_neg hfull, if_pos hempty]

/-- C10 witness: the empty queue (not full) still rejects a blank-id
patient. -/
theorem C10_witness :
    emptyPatientQueue.count ≠ MAX_PATIENTS ∧
    PatientQueue.enqueueV2 emptyPatientQueue badPatient =
      (false, emptyPatientQueue) :=
  ⟨by decide, C10_enqueueV2_validation emptyPatientQueue badPatient (Or.inl rfl)⟩

end HospitalDSTR
